import Mathlib

/-!
# webRTC-demo: room, peer and track bookkeeping of the SFU and the signaling Hub

A shallow embedding of `backend/internal/sfu/sfu.go` and
`hub.go`, `client.go`, `types.go` and `handler.go` of `backend/internal/signaling`.

* Go maps are association lists with unique keys (`AList`); assigning to a key is
  `AList.insert`, `delete` is `AList.erase`, `range` walks `entries` / `keys`.
  Go leaves the iteration order open; the embedding walks in list order.
* Pointers are handles: a `*webrtc.PeerConnection` and a `*webrtc.TrackLocalStaticRTP`
  are natural numbers handed out by the media engine, a `*Room` is the key under which
  the room sits in the registry, a `*Client` is the client record itself (its
  connection handle tells two clients of one user apart).
* The media engine (pion/webrtc) is a collaborator. It is embedded as a stub that hands
  out fresh handles and records the calls `AddTrack`, `Close` and `AddICECandidate`.
  Whether a negotiation succeeds is decided by the engine, so it is an argument
  (`Negotiation`) of the operations that negotiate.
* A Go panic is the `Except.error` result of an operation.
* Every exported operation is embedded as one atomic step. The two operations whose
  interleaving is studied are in addition split at their lock boundaries.
-/

set_option linter.unusedVariables false

namespace sfu

/-- The inbound media line reported to `OnTrack` (`*webrtc.TrackRemote`). -/
structure TrackRemote where
  ID : String
  StreamID : String
  deriving DecidableEq, Repr

/-- The relay track `*webrtc.TrackLocalStaticRTP`: `ptr` is the identity of the object,
the other fields mirror the inbound line it was created from. -/
structure TrackLocalStaticRTP where
  ptr : Nat
  ID : String
  StreamID : String
  deriving DecidableEq, Repr

/-- The struct `Peer` of sfu.go. `PeerConnection` is the handle of the session. -/
structure Peer where
  ID : String
  RoomID : String
  PeerConnection : Nat
  Tracks : List TrackLocalStaticRTP
  deriving DecidableEq, Repr

/-- The struct `Room` of sfu.go (the mutex is not state). -/
structure Room where
  ID : String
  Publisher : Option Peer
  Subscribers : AList (fun _ : String => Peer)

/-- The struct `SFU` of sfu.go: the room registry (mutex and configuration are not state). -/
structure SFU where
  rooms : AList (fun _ : String => Room)

/-- The stub of the media engine: the next free handles and the recorded calls, each
list in call order. -/
structure Engine where
  nextPC : Nat
  nextTrack : Nat
  addTrack : List (Nat × TrackLocalStaticRTP)
  close : List Nat
  candidates : List (Nat × String)

/-- An SFU together with the media engine it drives. -/
structure World where
  sfu : SFU
  webrtc : Engine

/-- The four fallible calls of a negotiation, in the order the handlers make them. -/
inductive SetupStep where
  | NewPeerConnection
  | SetRemoteDescription
  | CreateAnswer
  | SetLocalDescription
  deriving DecidableEq, Repr

/-- What the media engine does with one offer: the first call that fails, or the SDP of
the answer. -/
inductive Negotiation where
  | fail (step : SetupStep)
  | ok (answerSDP : String)
  deriving DecidableEq, Repr

/-- The constructor `NewSFU`: an empty registry. -/
def NewSFU : SFU := { rooms := ∅ }

/-- A fresh engine stub: nothing allocated, nothing recorded. -/
def Engine.fresh : Engine :=
  { nextPC := 0, nextTrack := 0, addTrack := [], close := [], candidates := [] }

/-- The call `webrtc.NewPeerConnection`: hands out the next session handle. -/
def Engine.newPeerConnection (e : Engine) : Nat × Engine :=
  (e.nextPC, { e with nextPC := e.nextPC + 1 })

/-- The call `pc.AddTrack(track)`: it is recorded (its error is only logged by the callers). -/
def Engine.AddTrack (e : Engine) (pc : Nat) (track : TrackLocalStaticRTP) : Engine :=
  { e with addTrack := e.addTrack ++ [(pc, track)] }

/-- The call `pc.Close()`: it is recorded. -/
def Engine.Close (e : Engine) (pc : Nat) : Engine :=
  { e with close := e.close ++ [pc] }

/-- The call `pc.AddICECandidate(candidate)`: it is recorded. -/
def Engine.AddICECandidate (e : Engine) (pc : Nat) (candidate : String) : Engine :=
  { e with candidates := e.candidates ++ [(pc, candidate)] }

/-- The assignment `*room = r` through the room pointer `roomKey`. -/
def World.setRoom (w : World) (roomKey : String) (r : Room) : World :=
  { w with sfu := { rooms := w.sfu.rooms.insert roomKey r } }

/-- sfu.go 111: `peer.Tracks = append(peer.Tracks, localTrack)` for the peer the callback
was registered for, which is the publisher stored in the room. When the room or its
publisher is gone, the peer is no longer part of the registry and the registry is
untouched. -/
def appendTrack (roomKey : String) (localTrack : TrackLocalStaticRTP) (w : World) : World :=
  match w.sfu.rooms.lookup roomKey with
  | none => w
  | some room =>
    match room.Publisher with
    | none => w
    | some peer =>
      w.setRoom roomKey { room with Publisher := some { peer with Tracks := peer.Tracks ++ [localTrack] } }

/-- sfu.go 132-140: under `room.mu.RLock`, `AddTrack(localTrack)` on the session of every
subscriber stored in the room. -/
def attachToSubscribers (roomKey : String) (localTrack : TrackLocalStaticRTP) (w : World) : World :=
  match w.sfu.rooms.lookup roomKey with
  | none => w
  | some room =>
    let e1 := room.Subscribers.entries.foldl
      (fun e subscriber => e.AddTrack subscriber.2.PeerConnection localTrack) w.webrtc
    { w with webrtc := e1 }

/-- sfu.go 97-141, the `OnTrack` callback of the publisher of the room `roomKey`.
`created` is whether `webrtc.NewTrackLocalStaticRTP` succeeded. The relay goroutine
(114-129) copies packets and touches no bookkeeping. -/
def onTrack (roomKey : String) (remoteTrack : TrackRemote) (created : Bool) (w : World) : World :=
  if created then
    let localTrack : TrackLocalStaticRTP :=
      { ptr := w.webrtc.nextTrack, ID := remoteTrack.ID, StreamID := remoteTrack.StreamID }
    let w1 := { w with webrtc := { w.webrtc with nextTrack := w.webrtc.nextTrack + 1 } }
    attachToSubscribers roomKey localTrack (appendTrack roomKey localTrack w1)
  else
    w

/-- sfu.go 79-175. The session is created first; a failing call returns the error at
once; only after `SetLocalDescription` is the peer stored as `room.Publisher`. -/
def handlePublisherOffer (roomKey : String) (userID offerSDP : String) (neg : Negotiation)
    (w : World) : Except SetupStep String × World :=
  match neg with
  | .fail .NewPeerConnection => (.error .NewPeerConnection, w)
  | .fail step => (.error step, { w with webrtc := w.webrtc.newPeerConnection.2 })
  | .ok answerSDP =>
    let (pc, e1) := w.webrtc.newPeerConnection
    let w1 := { w with webrtc := e1 }
    match w1.sfu.rooms.lookup roomKey with
    | none => (.ok answerSDP, w1)
    | some room =>
      let peer : Peer := { ID := userID, RoomID := room.ID, PeerConnection := pc, Tracks := [] }
      (.ok answerSDP, w1.setRoom roomKey { room with Publisher := some peer })

/-- sfu.go 188-198: under `room.mu.RLock`, `pc.AddTrack` for every track of the
publisher's track list as it is now. -/
def attachSnapshot (roomKey : String) (pc : Nat) (w : World) : World :=
  match w.sfu.rooms.lookup roomKey with
  | none => w
  | some room =>
    match room.Publisher with
    | none => w
    | some publisher =>
      let e1 := publisher.Tracks.foldl (fun e track => e.AddTrack pc track) w.webrtc
      { w with webrtc := e1 }

/-- sfu.go 226-234: under `room.mu.Lock`, `room.Subscribers[userID] = peer`. -/
def storeSubscriber (roomKey : String) (userID : String) (pc : Nat) (w : World) : World :=
  match w.sfu.rooms.lookup roomKey with
  | none => w
  | some room =>
    let peer : Peer := { ID := userID, RoomID := room.ID, PeerConnection := pc, Tracks := [] }
    w.setRoom roomKey { room with Subscribers := room.Subscribers.insert userID peer }

/-- sfu.go 178-238. The session is created, the publisher's tracks are attached to it,
then the negotiation runs; a failing call returns the error at once; only after
`SetLocalDescription` is the peer stored in `room.Subscribers`. -/
def handleSubscriberOffer (roomKey : String) (userID offerSDP : String) (neg : Negotiation)
    (w : World) : Except SetupStep String × World :=
  match neg with
  | .fail .NewPeerConnection => (.error .NewPeerConnection, w)
  | .fail step =>
    let (pc, e1) := w.webrtc.newPeerConnection
    (.error step, attachSnapshot roomKey pc { w with webrtc := e1 })
  | .ok answerSDP =>
    let (pc, e1) := w.webrtc.newPeerConnection
    (.ok answerSDP, storeSubscriber roomKey userID pc (attachSnapshot roomKey pc { w with webrtc := e1 }))

/-- sfu.go 53-65: look the room up, create and register it when it is not there. -/
def ensureRoom (roomID : String) (w : World) : Room × World :=
  match w.sfu.rooms.lookup roomID with
  | some room => (room, w)
  | none =>
    let room : Room := { ID := roomID, Publisher := none, Subscribers := ∅ }
    (room, w.setRoom roomID room)

/-- sfu.go 52-76, `SFU.HandleOffer`. -/
def HandleOffer (roomID userID offerSDP : String) (neg : Negotiation) (w : World) :
    Except SetupStep String × World :=
  let (room, w1) := ensureRoom roomID w
  let isPublisher := room.Publisher.isNone
  if isPublisher then
    handlePublisherOffer roomID userID offerSDP neg w1
  else
    handleSubscriberOffer roomID userID offerSDP neg w1

/-- A caller of `HandleOffer`: its user id, the SDP of its offer and the SDP of the answer
the media engine produces for it. -/
structure Caller where
  userID : String
  offerSDP : String
  answerSDP : String
  deriving DecidableEq, Repr

/-- Successfully negotiated `HandleOffer` calls on one room id, one after the other. -/
def joinAll (roomID : String) (callers : List Caller) (w : World) : World :=
  callers.foldl (fun w c => (HandleOffer roomID c.userID c.offerSDP (.ok c.answerSDP) w).2) w

/-- An SFU as `NewSFU` returns it, with a media engine that has done nothing yet. -/
def World.new : World := { sfu := NewSFU, webrtc := Engine.fresh }

/-- The media engine reports the inbound media lines `remoteTracks` one after the other
to the `OnTrack` callback of the publisher of the room, every relay track being created
successfully. -/
def onTracks (roomKey : String) (remoteTracks : List TrackRemote) (w : World) : World :=
  remoteTracks.foldl (fun w t => onTrack roomKey t true w) w

/-- The relay tracks `NewTrackLocalStaticRTP` creates for the inbound lines, in arrival
order, `next` being the first free track handle. -/
def relayTracks (next : Nat) : List TrackRemote → List TrackLocalStaticRTP
  | [] => []
  | t :: ts => { ptr := next, ID := t.ID, StreamID := t.StreamID } :: relayTracks (next + 1) ts

/-- The sessions of the subscribers stored in a room, in the order `range` walks them. -/
def Room.subscriberSessions (room : Room) : List Nat :=
  room.Subscribers.entries.map (fun s => s.2.PeerConnection)

/-- sfu.go 251-259: the peer a candidate or a removal is addressed to. -/
def Room.findPeer (room : Room) (userID : String) : Option Peer :=
  match room.Publisher with
  | some publisher => if publisher.ID = userID then some publisher else room.Subscribers.lookup userID
  | none => room.Subscribers.lookup userID

/-- The peer that `HandleICECandidate` and `RemovePeer` find for a room id and a user id:
the publisher when its id matches, else the subscriber stored under the user id. -/
def World.findPeer (w : World) (roomID userID : String) : Option Peer :=
  match w.sfu.rooms.lookup roomID with
  | none => none
  | some room => room.findPeer userID

/-- sfu.go 241-279, `SFU.HandleICECandidate`. `candidate` is the decoded candidate, `none`
when `json.Unmarshal` fails; `applied` is whether `AddICECandidate` succeeds. The result
is `true` for a nil error. -/
def HandleICECandidate (roomID userID : String) (candidate : Option String) (applied : Bool)
    (w : World) : Bool × World :=
  match w.sfu.rooms.lookup roomID with
  | none => (true, w)
  | some room =>
    match room.findPeer userID with
    | none => (true, w)
    | some peer =>
      match candidate with
      | none => (false, w)
      | some c => (applied, { w with webrtc := w.webrtc.AddICECandidate peer.PeerConnection c })

/-- sfu.go 282-320, `SFU.RemovePeer`. -/
def RemovePeer (roomID userID : String) (w : World) : World :=
  match w.sfu.rooms.lookup roomID with
  | none => w
  | some room =>
    match room.Publisher with
    | some publisher =>
      if publisher.ID = userID then
        let e1 := w.webrtc.Close publisher.PeerConnection
        let e2 := room.Subscribers.entries.foldl (fun e subscriber => e.Close subscriber.2.PeerConnection) e1
        { sfu := { rooms := w.sfu.rooms.erase roomID }, webrtc := e2 }
      else
        match room.Subscribers.lookup userID with
        | some subscriber =>
          { w with webrtc := w.webrtc.Close subscriber.PeerConnection }.setRoom roomID
            { room with Subscribers := room.Subscribers.erase userID }
        | none => w
    | none =>
      match room.Subscribers.lookup userID with
      | some subscriber =>
        { w with webrtc := w.webrtc.Close subscriber.PeerConnection }.setRoom roomID
          { room with Subscribers := room.Subscribers.erase userID }
      | none => w

end sfu

/-! ## The interleaving of a subscriber's join with the track-arrival callback -/

namespace sfu

/-- The sections of the two activities between which the other activity can run:
`handleSubscriberOffer` holds `room.mu` once to attach the snapshot (188-198) and once
more to store the peer (232-234); the `OnTrack` callback appends to `peer.Tracks` with no
lock held (111) and then holds `room.mu.RLock` to attach the track to the stored
subscribers (132-140). -/
inductive RaceStep where
  | subscriberSnapshot
  | subscriberStore
  | callbackAppend
  | callbackFanout
  deriving DecidableEq, Repr

/-- The locals of the two activities: the joining subscriber with the session created
for it, and the relay track the callback has created. -/
structure Race where
  roomKey : String
  userID : String
  pc : Nat
  localTrack : TrackLocalStaticRTP

/-- One section, run atomically. -/
def Race.step (r : Race) : RaceStep → World → World
  | .subscriberSnapshot => attachSnapshot r.roomKey r.pc
  | .subscriberStore => storeSubscriber r.roomKey r.userID r.pc
  | .callbackAppend => appendTrack r.roomKey r.localTrack
  | .callbackFanout => attachToSubscribers r.roomKey r.localTrack

/-- The sections in the order of a schedule. -/
def Race.run (r : Race) (schedule : List RaceStep) (w : World) : World :=
  schedule.foldl (fun w s => r.step s w) w

/-- Whether a section belongs to the subscriber's join. -/
def RaceStep.ofSubscriber : RaceStep → Bool
  | .subscriberSnapshot => true
  | .subscriberStore => true
  | _ => false

/-- A schedule is an interleaving when it runs each activity's sections once and in
program order. -/
def isInterleaving (schedule : List RaceStep) : Bool :=
  schedule.filter RaceStep.ofSubscriber = [.subscriberSnapshot, .subscriberStore] &&
  schedule.filter (fun s => !s.ofSubscriber) = [.callbackAppend, .callbackFanout]

/-- How often `AddTrack` was recorded for the new relay track on the joining
subscriber's session. -/
def Race.attachCount (r : Race) (w : World) : Nat :=
  w.webrtc.addTrack.count (r.pc, r.localTrack)

end sfu

/-! ## The scenario of the specification, on the SFU -/

namespace sfu

def pubCaller : Caller := { userID := "pub", offerSDP := "offer-pub", answerSDP := "answer-pub" }
def sub1Caller : Caller := { userID := "sub1", offerSDP := "offer-sub1", answerSDP := "answer-sub1" }
def sub2Caller : Caller := { userID := "sub2", offerSDP := "offer-sub2", answerSDP := "answer-sub2" }

def audioLine : TrackRemote := { ID := "audio", StreamID := "stream" }
def videoLine : TrackRemote := { ID := "video", StreamID := "stream" }

/-- Room "r1" after "pub", "sub1" and "sub2" have joined in this order: sessions 0, 1
and 2. -/
def demoWorld : World := joinAll "r1" [pubCaller, sub1Caller, sub2Caller] World.new

/-- The room "r1" of `demoWorld`. -/
def demoRoom : Room :=
  { ID := "r1",
    Publisher := some { ID := "pub", RoomID := "r1", PeerConnection := 0, Tracks := [] },
    Subscribers :=
      ((∅ : AList (fun _ : String => Peer)).insert "sub1"
          { ID := "sub1", RoomID := "r1", PeerConnection := 1, Tracks := [] }).insert "sub2"
          { ID := "sub2", RoomID := "r1", PeerConnection := 2, Tracks := [] } }

/-- The start of the race: "pub" is the stored publisher of "r1" (session 0) with no track
yet, `handleSubscriberOffer` has created session 1 for "sub1", and the `OnTrack` callback
has created relay track 0 for the audio line. -/
def raceStart : World :=
  let w := joinAll "r1" [pubCaller] World.new
  { w with webrtc := { w.webrtc with nextPC := 2, nextTrack := 1 } }

/-- The locals of the two activities at `raceStart`. -/
def demoRace : Race :=
  { roomKey := "r1", userID := "sub1", pc := 1,
    localTrack := { ptr := 0, ID := "audio", StreamID := "stream" } }

/-- The tracks of the publisher of a room of the registry. -/
def World.publisherTracks (w : World) (roomKey : String) : List TrackLocalStaticRTP :=
  match w.sfu.rooms.lookup roomKey with
  | none => []
  | some room =>
    match room.Publisher with
    | none => []
    | some publisher => publisher.Tracks

/-- The user ids of the subscribers of a room of the registry. -/
def World.subscriberIDs (w : World) (roomKey : String) : List String :=
  match w.sfu.rooms.lookup roomKey with
  | none => []
  | some room => room.Subscribers.keys

end sfu

/-! ## The signaling Hub -/

namespace signaling

/-- The string type `MessageType` of types.go. -/
abbrev MessageType := String

def TypeOffer : MessageType := "offer"
def TypeAnswer : MessageType := "answer"
def TypeICECandidate : MessageType := "ice_candidate"
def TypeJoin : MessageType := "join"
def TypeLeave : MessageType := "leave"

/-- A decoded JSON value of a payload field. -/
inductive JSONValue where
  | str (s : String)
  | num (n : Int)
  | null
  deriving DecidableEq, Repr

/-- The field `Payload` (an empty interface) after JSON decoding: an object, which Go
decodes to a map from strings to values, or anything else. -/
inductive Payload where
  | object (fields : List (String × JSONValue))
  | other
  deriving DecidableEq, Repr

/-- The struct `Message` of types.go. -/
structure Message where
  type : MessageType
  RoomID : String
  UserID : String
  Payload : Payload
  deriving DecidableEq, Repr

/-- The struct `Client` of client.go, as the identity of the client: its connection and
the two ids fixed at creation. The state of its `send` channel lives in `Hub.send`. -/
structure Client where
  conn : Nat
  roomID : String
  userID : String
  deriving DecidableEq, Repr

/-- The state of a buffered channel `chan *Message`. -/
structure Chan where
  buf : List Message
  closed : Bool
  deriving DecidableEq, Repr

/-- handler.go 51: `make(chan *Message, 256)`. -/
def sendCapacity : Nat := 256

/-- The run-time panics of channel operations. -/
inductive Panic where
  | sendOnClosedChannel (c : Client)
  | closeOfClosedChannel (c : Client)
  deriving DecidableEq, Repr

/-- The struct `Hub` of hub.go with the heap it reaches: the membership map, the SFU
instance with its media engine, and the state of every client's `send` channel. The three
event channels are not state: the event loop `Run` handles one event at a time, and an
event is embedded as the call of its handler. -/
structure Hub where
  rooms : AList (fun _ : String => AList (fun _ : Client => Bool))
  sfu : sfu.World
  send : Client → Chan

/-- The struct `BroadcastMessage` of hub.go; `Sender` is `none` for a nil pointer. -/
structure BroadcastMessage where
  RoomID : String
  Message : Message
  Sender : Option Client

/-- A channel as `make` returns it. -/
def Chan.make : Chan := { buf := [], closed := false }

/-- The constructor `NewHub`: no rooms, a new SFU, and every channel as it will be made. -/
def NewHub : Hub :=
  { rooms := ∅, sfu := { sfu := sfu.NewSFU, webrtc := sfu.Engine.fresh }, send := fun _ => Chan.make }

/-- hub.go 71-86, `Hub.registerClient`. -/
def registerClient (client : Client) (h : Hub) : Hub :=
  let clients : AList (fun _ : Client => Bool) :=
    match h.rooms.lookup client.roomID with
    | none => ∅
    | some clients => clients
  { h with rooms := h.rooms.insert client.roomID (clients.insert client true) }

/-- hub.go 89-114, `Hub.unregisterClient`. `close` of a closed channel panics. -/
def unregisterClient (client : Client) (h : Hub) : Except Panic Hub :=
  match h.rooms.lookup client.roomID with
  | none => .ok h
  | some clients =>
    if client ∈ clients then
      let clients1 := clients.erase client
      if (h.send client).closed then
        .error (.closeOfClosedChannel client)
      else
        let send1 := Function.update h.send client { h.send client with closed := true }
        let sfu1 := sfu.RemovePeer client.roomID client.userID h.sfu
        if clients1.keys.length = 0 then
          .ok { rooms := h.rooms.erase client.roomID, sfu := sfu1, send := send1 }
        else
          .ok { rooms := h.rooms.insert client.roomID clients1, sfu := sfu1, send := send1 }
    else
      .ok h

/-- The `select` statement with the case `client.send <- m` and a `default`: a send on a
closed channel panics, a send on a channel with room enqueues, otherwise the default
branch runs and nothing is enqueued. -/
def trySend (client : Client) (m : Message) (send : Client → Chan) : Except Panic (Client → Chan) :=
  if (send client).closed then
    .error (.sendOnClosedChannel client)
  else if (send client).buf.length < sendCapacity then
    .ok (Function.update send client { send client with buf := (send client).buf ++ [m] })
  else
    .ok send

/-- hub.go 129-142: the body of the loop for one client of the room. -/
def broadcastStep (b : BroadcastMessage) (send : Client → Chan) (client : Client) :
    Except Panic (Client → Chan) :=
  if b.Sender = some client then
    .ok send
  else
    trySend client b.Message send

/-- hub.go 117-146, `Hub.broadcastToRoom` (the counter `sentCount` is only logged). -/
def broadcastToRoom (b : BroadcastMessage) (h : Hub) : Except Panic Hub :=
  match h.rooms.lookup b.RoomID with
  | none => .ok h
  | some clients =>
    match clients.keys.foldlM (broadcastStep b) h.send with
    | .error p => .error p
    | .ok send1 => .ok { h with send := send1 }

/-- client.go 161-171: the string under `"sdp"` of an object payload. -/
def Payload.sdp : Payload → Option String
  | .object fields =>
    match fields.lookup "sdp" with
    | some (.str s) => some s
    | _ => none
  | .other => none

/-- What the media engine answers while one inbound message is handled: the outcome of
the negotiation of an offer, the candidate `json.Unmarshal` decodes (`none` when it
fails) and whether `AddICECandidate` accepts it. -/
structure EngineReply where
  negotiation : sfu.Negotiation
  candidate : Option String
  applied : Bool

/-- client.go 156-197, `Client.handleOffer`. -/
def Client.handleOffer (c : Client) (msg : Message) (neg : sfu.Negotiation) (h : Hub) :
    Except Panic Hub :=
  match msg.Payload.sdp with
  | none => .ok h
  | some sdp =>
    match sfu.HandleOffer c.roomID c.userID sdp neg h.sfu with
    | (.error _, w1) => .ok { h with sfu := w1 }
    | (.ok answerSDP, w1) =>
      let answer : Message :=
        { type := TypeAnswer, RoomID := c.roomID, UserID := "sfu",
          Payload := .object [("sdp", .str answerSDP), ("type", .str "answer")] }
      match trySend c answer h.send with
      | .error p => .error p
      | .ok send1 => .ok { h with sfu := w1, send := send1 }

/-- client.go 200-215, `Client.handleICECandidate`. -/
def Client.handleICECandidate (c : Client) (msg : Message) (reply : EngineReply) (h : Hub) : Hub :=
  { h with sfu := (sfu.HandleICECandidate c.roomID c.userID reply.candidate reply.applied h.sfu).2 }

/-- client.go 123-153, `Client.handleMessage`. Handing an event to the Hub is embedded as
the Hub handling it. The join case only logs: the comment at client.go 126 announces a
welcome message, but nothing is sent on the client's channel. -/
def Client.handleMessage (c : Client) (msg : Message) (reply : EngineReply) (h : Hub) :
    Except Panic Hub :=
  if msg.type = TypeJoin then
    .ok h
  else if msg.type = TypeOffer then
    c.handleOffer msg reply.negotiation h
  else if msg.type = TypeAnswer then
    broadcastToRoom { RoomID := c.roomID, Message := msg, Sender := some c } h
  else if msg.type = TypeICECandidate then
    .ok (c.handleICECandidate msg reply h)
  else if msg.type = TypeLeave then
    unregisterClient c h
  else
    .ok h

/-- client.go 62-81, the loop of `Client.readPump` over the messages read: each one is
stamped with the client's room and user and handled. -/
def Client.readMessages (c : Client) (inbound : List (Message × EngineReply)) (h : Hub) :
    Except Panic Hub :=
  inbound.foldlM
    (fun h mr => c.handleMessage { mr.1 with RoomID := c.roomID, UserID := c.userID } mr.2 h) h

/-- handler.go 27-65, `HandleWebSocket` once the connection `conn` is upgraded: empty ids
are rejected, otherwise the client is created with a channel of its own and registered. -/
def HandleWebSocket (roomID userID : String) (conn : Nat) (h : Hub) : Hub :=
  if roomID = "" ∨ userID = "" then
    h
  else
    let client : Client := { conn := conn, roomID := roomID, userID := userID }
    registerClient client { h with send := Function.update h.send client Chan.make }

/-- The two events of the Hub's event loop that change the membership map (hub.go
55-61). -/
inductive HubEvent where
  | register (client : Client)
  | unregister (client : Client)
  deriving DecidableEq, Repr

/-- hub.go 53-67, one turn of the loop of `Hub.Run` for a membership event. -/
def HubEvent.handle : HubEvent → Hub → Except Panic Hub
  | .register client, h => .ok (registerClient client h)
  | .unregister client, h => unregisterClient client h

/-- The event loop handling a sequence of membership events, one at a time. -/
def runEvents (events : List HubEvent) (h : Hub) : Except Panic Hub :=
  events.foldlM (fun h e => e.handle h) h

/-- The clients that are registered after a sequence of membership events, by the words
of the specification and without looking at the Hub: `Register` inserts the client handle,
`Unregister` removes it and is a no-op when it is absent. -/
def registeredAfter (events : List HubEvent) : List Client :=
  events.foldl
    (fun members e =>
      match e with
      | .register client => if client ∈ members then members else client :: members
      | .unregister client => members.filter (fun c => c ≠ client))
    []

/-- The Hub the event loop reaches from `h` (`h` itself when a step panics). -/
def hubAfter (events : List HubEvent) (h : Hub) : Hub :=
  match runEvents events h with
  | .ok h1 => h1
  | .error _ => h

/-- No room of the membership map has an empty member map. -/
def NoEmptyRoom (h : Hub) : Prop :=
  ∀ roomID clients, h.rooms.lookup roomID = some clients → ∃ c, c ∈ clients

/-- The channel of a client after one message was offered to it by a non-blocking send:
enqueued at the end when there is room, unchanged when the queue is full. -/
def offered (m : Message) (ch : Chan) : Chan :=
  if ch.buf.length < sendCapacity then { ch with buf := ch.buf ++ [m] } else ch

/-- A client is registered in a room when it is a key of the room's member map. -/
def Hub.registered (h : Hub) (roomID : String) (client : Client) : Prop :=
  ∃ clients, h.rooms.lookup roomID = some clients ∧ client ∈ clients

/-- Every registered client is registered under its own room id and its channel is not
closed. -/
def WellFormed (h : Hub) : Prop :=
  ∀ roomID c, h.registered roomID c → c.roomID = roomID ∧ (h.send c).closed = false

/-- The runs of the server: connections are accepted by `HandleWebSocket`, the message
pump of a client handles an inbound message, a client is unregistered, the media engine
reports a track to an `OnTrack` callback. A step that panics ends the run. -/
inductive Running : Hub → Prop where
  | start : Running NewHub
  | connect (roomID userID : String) (conn : Nat) (h : Hub) (hr : Running h) :
      Running (HandleWebSocket roomID userID conn h)
  | message (c : Client) (msg : Message) (reply : EngineReply) (h h1 : Hub) (hr : Running h)
      (hstep : c.handleMessage msg reply h = .ok h1) : Running h1
  | disconnect (c : Client) (h h1 : Hub) (hr : Running h)
      (hstep : unregisterClient c h = .ok h1) : Running h1
  | track (roomKey : String) (t : sfu.TrackRemote) (created : Bool) (h : Hub) (hr : Running h) :
      Running { h with sfu := sfu.onTrack roomKey t created h.sfu }


end signaling

/-! ## The scenario of the specification, on the Hub -/

namespace signaling

def pubClient : Client := { conn := 0, roomID := "r1", userID := "pub" }
def sub1Client : Client := { conn := 1, roomID := "r1", userID := "sub1" }
def sub2Client : Client := { conn := 2, roomID := "r1", userID := "sub2" }

/-- An offer as it arrives from the wire. -/
def offerMessage (sdp : String) : Message :=
  { type := TypeOffer, RoomID := "", UserID := "",
    Payload := .object [("sdp", .str sdp), ("type", .str "offer")] }

/-- A leave message as it arrives from the wire. -/
def leaveMessage : Message :=
  { type := TypeLeave, RoomID := "", UserID := "", Payload := .other }

/-- The media engine negotiates the offer and answers with `answerSDP`. -/
def accept (answerSDP : String) : EngineReply :=
  { negotiation := .ok answerSDP, candidate := none, applied := false }

/-- The clients registered in a room, in the order `range` walks them. -/
def Hub.members (h : Hub) (roomID : String) : List Client :=
  match h.rooms.lookup roomID with
  | none => []
  | some clients => clients.keys

/-- The scenario of the specification up to the disconnect: "pub" connects to "r1" and
sends a valid offer, "sub1" does the same, the publisher's session reports an audio line,
then "sub2" connects and sends a valid offer. -/
def scenario : Except Panic Hub := do
  let h1 ← pubClient.readMessages [(offerMessage "offer-pub", accept "answer-pub")]
    (HandleWebSocket "r1" "pub" 0 NewHub)
  let h2 ← sub1Client.readMessages [(offerMessage "offer-sub1", accept "answer-sub1")]
    (HandleWebSocket "r1" "sub1" 1 h1)
  let h3 : Hub := { h2 with sfu := sfu.onTrack "r1" sfu.audioLine true h2.sfu }
  sub2Client.readMessages [(offerMessage "offer-sub2", accept "answer-sub2")]
    (HandleWebSocket "r1" "sub2" 2 h3)

/-- The three clients registered in "r1" and the SFU room "r1" with "pub" as publisher and
"sub1", "sub2" as subscribers; all channels open and empty. -/
def demoHub : Hub :=
  { rooms := (HandleWebSocket "r1" "sub2" 2 (HandleWebSocket "r1" "sub1" 1
      (HandleWebSocket "r1" "pub" 0 NewHub))).rooms,
    sfu := sfu.demoWorld,
    send := fun _ => Chan.make }

/-- The member map of "r1" in `demoHub`. -/
def demoClients : AList (fun _ : Client => Bool) :=
  (((∅ : AList (fun _ : Client => Bool)).insert pubClient true).insert sub1Client true).insert
    sub2Client true

/-- A client of another room. -/
def guestClient : Client := { conn := 3, roomID := "r2", userID := "guest" }

/-- Membership events: "pub" and "sub1" register in "r1" and a guest in "r2", "pub" is
registered once more, then "pub" is unregistered twice. -/
def demoEvents : List HubEvent :=
  [.register pubClient, .register sub1Client, .register guestClient, .register pubClient,
   .unregister pubClient, .unregister pubClient]

/-- The Hub after "pub" alone has connected to "r1". -/
def soloHub : Hub := HandleWebSocket "r1" "pub" 0 NewHub

/-- The Hub `demoHub` with the queue of "sub1" full. -/
def fullHub : Hub :=
  { demoHub with
    send := fun c =>
      if c = sub1Client then { buf := List.replicate 256 leaveMessage, closed := false }
      else Chan.make }

/-- What the scenario shows of a Hub: the keys of the membership map, the members of
"r1", the keys of the SFU's room map, the subscribers of the SFU room "r1", the tracks of
its publisher, and the sessions closed so far. -/
def Hub.view (h : Hub) :
    List String × List Client × List String × List String × List sfu.TrackLocalStaticRTP × List Nat :=
  (h.rooms.keys, h.members "r1", h.sfu.sfu.rooms.keys, h.sfu.subscriberIDs "r1",
    h.sfu.publisherTracks "r1", h.sfu.webrtc.close)

end signaling

/-! ## The SFU: removal -/

section RemovePeerFacts
open sfu

theorem sfu.lookup_setRoom (w : World) (k : String) (r : Room) :
    (w.setRoom k r).sfu.rooms.lookup k = some r := by
  simp [World.setRoom, AList.lookup_insert]

theorem sfu.lookup_setRoom_ne (w : World) (k k' : String) (r : Room) (h : k' ≠ k) :
    (w.setRoom k r).sfu.rooms.lookup k' = w.sfu.rooms.lookup k' := by
  simp [World.setRoom, AList.lookup_insert_ne h]

/-- After `RemovePeer` the registry holds no peer for that room id and user id. -/
theorem sfu.findPeer_RemovePeer (roomID userID : String) (w : World) :
    (RemovePeer roomID userID w).findPeer roomID userID = none := by
  cases hr : w.sfu.rooms.lookup roomID with
  | none => simp [RemovePeer, World.findPeer, hr]
  | some room =>
    cases hp : room.Publisher with
    | none =>
      cases hs : room.Subscribers.lookup userID with
      | none => simp [RemovePeer, World.findPeer, Room.findPeer, hr, hp, hs]
      | some sub =>
        simp [RemovePeer, World.findPeer, Room.findPeer, hr, hp, hs, sfu.lookup_setRoom,
          AList.lookup_erase]
    | some pub =>
      by_cases hid : pub.ID = userID
      · simp [RemovePeer, World.findPeer, hr, hp, hid, AList.lookup_erase]
      · cases hs : room.Subscribers.lookup userID with
        | none => simp [RemovePeer, World.findPeer, Room.findPeer, hr, hp, hs, hid]
        | some sub =>
          simp [RemovePeer, World.findPeer, Room.findPeer, hr, hp, hs, hid, sfu.lookup_setRoom,
            AList.lookup_erase]

/-- When the registry holds no peer for a room id and user id, `RemovePeer` does nothing. -/
theorem sfu.RemovePeer_of_findPeer_none (roomID userID : String) (w : World)
    (hnone : w.findPeer roomID userID = none) : RemovePeer roomID userID w = w := by
  cases hr : w.sfu.rooms.lookup roomID with
  | none => simp [RemovePeer, hr]
  | some room =>
    cases hp : room.Publisher with
    | none =>
      have hs : room.Subscribers.lookup userID = none := by
        simpa [World.findPeer, Room.findPeer, hr, hp] using hnone
      simp [RemovePeer, hr, hp, hs]
    | some pub =>
      by_cases hid : pub.ID = userID
      · simp [World.findPeer, Room.findPeer, hr, hp, hid] at hnone
      · have hs : room.Subscribers.lookup userID = none := by
          simpa [World.findPeer, Room.findPeer, hr, hp, hid] using hnone
        simp [RemovePeer, hr, hp, hs, hid]

/-- C10. Calling `RemovePeer` twice in a row for the same room id and user id is the same
as calling it once: after the first call the registry holds no peer for them, and the
second call returns the state it was given, registry and recorded engine calls alike, so
it closes no session. -/
theorem RemovePeer_twice_eq_once (roomID userID : String) (w : World) :
    (RemovePeer roomID userID w).findPeer roomID userID = none
    ∧ RemovePeer roomID userID (RemovePeer roomID userID w) = RemovePeer roomID userID w
    ∧ (RemovePeer roomID userID (RemovePeer roomID userID w)).webrtc.close =
        (RemovePeer roomID userID w).webrtc.close := by
  have h := sfu.findPeer_RemovePeer roomID userID w
  have h2 := sfu.RemovePeer_of_findPeer_none roomID userID _ h
  exact ⟨h, h2, by rw [h2]⟩

end RemovePeerFacts

section RemovePeerCases
open sfu

theorem sfu.foldl_Close_close (l : List (Sigma (fun _ : String => Peer))) (e : Engine) :
    (l.foldl (fun e subscriber => e.Close subscriber.2.PeerConnection) e).close =
      e.close ++ l.map (fun s => s.2.PeerConnection) := by
  induction l generalizing e with
  | nil => simp
  | cons s l ih =>
    rw [List.foldl_cons, ih]
    simp [Engine.Close]

/-- C6. `RemovePeer` on a room of the registry. With the publisher's id it records one
`Close` for the publisher's session and one for the session of every subscriber (when the
peers of the room hold distinct sessions, each of these sessions is closed exactly once
more than before and no other session is closed), and the room id is no longer in the
registry. With the id of a subscriber that is not the publisher's it
records one `Close`, for that subscriber's session, removes that key alone from the
subscriber map, and leaves the publisher, the other subscribers, the keys of the registry
and every other room as they were. -/
theorem RemovePeer_cases (roomID userID : String) (w : World) (room : Room)
    (hroom : w.sfu.rooms.lookup roomID = some room) :
    (∀ pub, room.Publisher = some pub → pub.ID = userID →
      (RemovePeer roomID userID w).webrtc.close =
          w.webrtc.close ++
            pub.PeerConnection :: room.Subscribers.entries.map (fun s => s.2.PeerConnection)
        ∧ ((pub.PeerConnection :: room.subscriberSessions).Nodup →
            (∀ pc ∈ pub.PeerConnection :: room.subscriberSessions,
              (RemovePeer roomID userID w).webrtc.close.count pc = w.webrtc.close.count pc + 1)
            ∧ ∀ pc, pc ∉ pub.PeerConnection :: room.subscriberSessions →
              (RemovePeer roomID userID w).webrtc.close.count pc = w.webrtc.close.count pc)
        ∧ roomID ∉ (RemovePeer roomID userID w).sfu.rooms
        ∧ ∀ k, k ≠ roomID →
            (RemovePeer roomID userID w).sfu.rooms.lookup k = w.sfu.rooms.lookup k)
    ∧ (∀ sub, (∀ pub, room.Publisher = some pub → pub.ID ≠ userID) →
        room.Subscribers.lookup userID = some sub →
      (RemovePeer roomID userID w).webrtc.close = w.webrtc.close ++ [sub.PeerConnection]
        ∧ (RemovePeer roomID userID w).sfu.rooms.lookup roomID =
            some { room with Subscribers := room.Subscribers.erase userID }
        ∧ (room.Subscribers.erase userID).lookup userID = none
        ∧ (∀ u, u ≠ userID →
            (room.Subscribers.erase userID).lookup u = room.Subscribers.lookup u)
        ∧ (∀ k, k ∈ (RemovePeer roomID userID w).sfu.rooms ↔ k ∈ w.sfu.rooms)
        ∧ ∀ k, k ≠ roomID →
            (RemovePeer roomID userID w).sfu.rooms.lookup k = w.sfu.rooms.lookup k) := by
  refine ⟨?_, ?_⟩
  · intro pub hpub hid
    have h1 : RemovePeer roomID userID w =
        { sfu := { rooms := w.sfu.rooms.erase roomID },
          webrtc := room.Subscribers.entries.foldl
            (fun e subscriber => e.Close subscriber.2.PeerConnection)
            (w.webrtc.Close pub.PeerConnection) } := by
      simp [RemovePeer, hroom, hpub, hid]
    rw [h1]
    refine ⟨?_, ?_, ?_, ?_⟩
    · rw [sfu.foldl_Close_close]
      simp [Engine.Close]
    · intro hnd
      have hlog : (List.foldl (fun e subscriber => e.Close subscriber.2.PeerConnection)
          (w.webrtc.Close pub.PeerConnection) room.Subscribers.entries).close =
            w.webrtc.close ++ pub.PeerConnection :: room.subscriberSessions := by
        rw [sfu.foldl_Close_close]
        simp [Engine.Close, Room.subscriberSessions]
      refine ⟨?_, ?_⟩
      · intro pc hpc
        dsimp only
        rw [hlog, List.count_append, List.count_eq_one_of_mem hnd hpc]
      · intro pc hpc
        dsimp only
        rw [hlog, List.count_append, List.count_eq_zero.mpr hpc]
        rfl
    · simp [AList.mem_erase]
    · intro k hk
      simp [AList.lookup_erase_ne hk]
  · intro sub hnot hsub
    have h1 : RemovePeer roomID userID w =
        { w with webrtc := w.webrtc.Close sub.PeerConnection }.setRoom roomID
          { room with Subscribers := room.Subscribers.erase userID } := by
      cases hp : room.Publisher with
      | none => simp [RemovePeer, hroom, hp, hsub]
      | some pub => simp [RemovePeer, hroom, hp, hsub, hnot pub hp]
    rw [h1]
    have hmem : roomID ∈ w.sfu.rooms := by
      rw [← AList.lookup_isSome, hroom]; rfl
    refine ⟨?_, ?_, ?_, ?_, ?_, ?_⟩
    · simp [World.setRoom, Engine.Close]
    · simp [sfu.lookup_setRoom]
    · simp [AList.lookup_erase]
    · intro u hu
      exact AList.lookup_erase_ne hu
    · intro k
      simp only [World.setRoom, AList.mem_insert]
      constructor
      · rintro (rfl | h)
        · exact hmem
        · exact h
      · intro h; exact Or.inr h
    · intro k hk
      simp [World.setRoom, AList.lookup_insert_ne hk]

end RemovePeerCases

/-! ## The SFU: role assignment -/

section Roles
open sfu

theorem sfu.HandleOffer_new_room (roomID userID offerSDP answerSDP : String) (w : World)
    (hnew : roomID ∉ w.sfu.rooms) :
    (HandleOffer roomID userID offerSDP (.ok answerSDP) w).2.sfu.rooms.lookup roomID =
      some { ID := roomID,
             Publisher := some { ID := userID, RoomID := roomID,
                                 PeerConnection := w.webrtc.nextPC, Tracks := [] },
             Subscribers := ∅ } := by
  have hnone : w.sfu.rooms.lookup roomID = none := AList.lookup_eq_none.mpr hnew
  simp [HandleOffer, ensureRoom, hnone, handlePublisherOffer, Engine.newPeerConnection,
    World.setRoom, AList.lookup_insert]

theorem sfu.lookup_attachSnapshot (roomKey : String) (pc : Nat) (w : World) :
    (attachSnapshot roomKey pc w).sfu = w.sfu := by
  unfold attachSnapshot
  split
  · rfl
  · split <;> rfl

theorem sfu.HandleOffer_with_publisher (roomID userID offerSDP answerSDP : String) (w : World)
    (room : Room) (pub : Peer) (hroom : w.sfu.rooms.lookup roomID = some room)
    (hpub : room.Publisher = some pub) :
    (HandleOffer roomID userID offerSDP (.ok answerSDP) w).2.sfu.rooms.lookup roomID =
      some { room with
             Subscribers := room.Subscribers.insert userID
               { ID := userID, RoomID := room.ID, PeerConnection := w.webrtc.nextPC,
                 Tracks := [] } } := by
  simp [HandleOffer, ensureRoom, hroom, hpub, handleSubscriberOffer, Engine.newPeerConnection,
    storeSubscriber, sfu.lookup_attachSnapshot, World.setRoom, AList.lookup_insert]

theorem sfu.joinAll_append (roomID : String) (l : List Caller) (c : Caller) (w : World) :
    joinAll roomID (l ++ [c]) w =
      (HandleOffer roomID c.userID c.offerSDP (.ok c.answerSDP) (joinAll roomID l w)).2 := by
  simp [joinAll, List.foldl_append]

/-- Later callers of a room that has a publisher: the publisher stays, and the subscriber
map gains exactly the callers' ids, each mapped to a peer of that id. -/
theorem sfu.joinAll_with_publisher (roomID : String) (l : List Caller) (w : World)
    (room : Room) (pub : Peer) (hroom : w.sfu.rooms.lookup roomID = some room)
    (hpub : room.Publisher = some pub) :
    ∃ room1, (joinAll roomID l w).sfu.rooms.lookup roomID = some room1
      ∧ room1.Publisher = some pub
      ∧ (∀ c ∈ l, ∃ p, room1.Subscribers.lookup c.userID = some p ∧ p.ID = c.userID)
      ∧ (∀ u, u ∈ room1.Subscribers ↔ u ∈ room.Subscribers ∨ ∃ c ∈ l, c.userID = u) := by
  induction l using List.reverseRecOn with
  | nil => exact ⟨room, by simpa [joinAll] using hroom, hpub, by simp, by simp⟩
  | append_singleton l c ih =>
    obtain ⟨room1, h1, h2, h3, h4⟩ := ih
    refine ⟨{ room1 with
               Subscribers := room1.Subscribers.insert c.userID
                 { ID := c.userID, RoomID := room1.ID,
                   PeerConnection := (joinAll roomID l w).webrtc.nextPC, Tracks := [] } },
            ?_, ?_, ?_, ?_⟩
    · rw [sfu.joinAll_append]
      exact sfu.HandleOffer_with_publisher roomID c.userID c.offerSDP c.answerSDP _ room1 pub h1 h2
    · exact h2
    · intro d hd
      by_cases hdc : d.userID = c.userID
      · exact ⟨_, by rw [hdc]; exact AList.lookup_insert _, hdc.symm⟩
      · rcases List.mem_append.mp hd with hd | hd
        · obtain ⟨p, hp1, hp2⟩ := h3 d hd
          exact ⟨p, by rw [AList.lookup_insert_ne hdc]; exact hp1, hp2⟩
        · simp at hd
          exact absurd (by rw [hd]) hdc
    · intro u
      simp only [AList.mem_insert, h4, List.mem_append, List.mem_singleton]
      constructor
      · rintro (rfl | h | ⟨d, hd, rfl⟩)
        · exact Or.inr ⟨c, Or.inr rfl, rfl⟩
        · exact Or.inl h
        · exact Or.inr ⟨d, Or.inl hd, rfl⟩
      · rintro (h | ⟨d, hd | rfl, rfl⟩)
        · exact Or.inr (Or.inl h)
        · exact Or.inr (Or.inr ⟨d, hd, rfl⟩)
        · exact Or.inl rfl

/-- C3. Successfully negotiated `HandleOffer` calls, one after the other, on a room id
that is not in the registry: the first caller is stored as the room's `Publisher`, and
after any number of the later calls that same peer is still the `Publisher`, every later
caller handled so far is stored in `Subscribers` under its user id, and `Subscribers` has
no other key. -/
theorem HandleOffer_first_publisher_rest_subscribers (roomID : String) (w : sfu.World)
    (first : Caller) (later : List Caller) (hnew : roomID ∉ w.sfu.rooms) :
    ∃ pub : Peer, pub.ID = first.userID ∧
      ∀ n, ∃ room, (joinAll roomID (first :: later.take n) w).sfu.rooms.lookup roomID = some room
        ∧ room.Publisher = some pub
        ∧ (∀ c ∈ later.take n, ∃ p, room.Subscribers.lookup c.userID = some p ∧ p.ID = c.userID)
        ∧ (∀ u, u ∈ room.Subscribers ↔ ∃ c ∈ later.take n, c.userID = u) := by
  refine ⟨{ ID := first.userID, RoomID := roomID, PeerConnection := w.webrtc.nextPC,
            Tracks := [] }, rfl, ?_⟩
  intro n
  have h0 := sfu.HandleOffer_new_room roomID first.userID first.offerSDP first.answerSDP w hnew
  obtain ⟨room1, h1, h2, h3, h4⟩ := sfu.joinAll_with_publisher roomID (later.take n) _ _ _ h0 rfl
  refine ⟨room1, ?_, h2, h3, ?_⟩
  · simpa [joinAll] using h1
  · intro u
    rw [h4 u]
    simp

end Roles

/-! ## The SFU: a failed negotiation -/

section FailedNegotiation
open sfu

/-- C4, as stated, fails: a `HandleOffer` call on a new SFU whose negotiation fails at
`SetRemoteDescription` returns the error and leaves the room id in the registry, which
had no room before. -/
theorem HandleOffer_failed_keeps_new_room :
    (HandleOffer "r1" "pub" "v=0" (.fail .SetRemoteDescription) World.new).1
        = .error .SetRemoteDescription
      ∧ World.new.sfu.rooms.keys = []
      ∧ (HandleOffer "r1" "pub" "v=0" (.fail .SetRemoteDescription) World.new).2.sfu.rooms.keys
        = ["r1"] := by
  refine ⟨rfl, rfl, rfl⟩

/-- C4, amended. A `HandleOffer` call whose negotiation fails returns the error of the
failing call and stores or removes no peer: when the room id was in the registry, the
registry with all its rooms is the same as before; when it was not, the registry is the
one before with the room id added, mapped to a room with no publisher and no subscriber. -/
theorem HandleOffer_failed_bookkeeping (roomID userID offerSDP : String) (step : SetupStep)
    (w : World) :
    (HandleOffer roomID userID offerSDP (.fail step) w).1 = .error step
      ∧ (HandleOffer roomID userID offerSDP (.fail step) w).2.sfu.rooms =
          if roomID ∈ w.sfu.rooms then w.sfu.rooms
          else w.sfu.rooms.insert roomID { ID := roomID, Publisher := none, Subscribers := ∅ } := by
  cases hr : w.sfu.rooms.lookup roomID with
  | none =>
    have hnot : roomID ∉ w.sfu.rooms := AList.lookup_eq_none.mp hr
    cases step <;>
      simp [HandleOffer, ensureRoom, hr, hnot, handlePublisherOffer, World.setRoom]
  | some room =>
    have hmem : roomID ∈ w.sfu.rooms := by
      rw [← AList.lookup_isSome, hr]; rfl
    cases hp : room.Publisher with
    | none =>
      cases step <;>
        simp [HandleOffer, ensureRoom, hr, hmem, hp, handlePublisherOffer]
    | some pub =>
      cases step <;>
        simp [HandleOffer, ensureRoom, hr, hmem, hp, handleSubscriberOffer,
          sfu.lookup_attachSnapshot]

end FailedNegotiation

/-! ## The SFU: fan-out of relay tracks -/

section FanOut
open sfu

theorem sfu.foldl_AddTrack (l : List (Sigma (fun _ : String => Peer)))
    (t : TrackLocalStaticRTP) (e : Engine) :
    l.foldl (fun e subscriber => e.AddTrack subscriber.2.PeerConnection t) e =
      { e with addTrack := e.addTrack ++ l.map (fun s => (s.2.PeerConnection, t)) } := by
  induction l generalizing e with
  | nil => simp
  | cons s l ih =>
    rw [List.foldl_cons, ih]
    simp [Engine.AddTrack]

/-- One track arrival in a room with a stored publisher. -/
theorem sfu.onTrack_with_publisher (roomID : String) (t : TrackRemote) (w : World)
    (room : Room) (pub : Peer) (hroom : w.sfu.rooms.lookup roomID = some room)
    (hpub : room.Publisher = some pub) :
    onTrack roomID t true w =
      { sfu := { rooms := w.sfu.rooms.insert roomID
                  { room with Publisher := (some
                      { pub with Tracks := pub.Tracks ++
                          [{ ptr := w.webrtc.nextTrack, ID := t.ID, StreamID := t.StreamID }] }) } },
        webrtc := { w.webrtc with
          nextTrack := w.webrtc.nextTrack + 1,
          addTrack := w.webrtc.addTrack ++ room.subscriberSessions.map
            (fun pc => (pc, { ptr := w.webrtc.nextTrack, ID := t.ID, StreamID := t.StreamID })) } } := by
  simp [onTrack, appendTrack, attachToSubscribers, hroom, hpub, World.setRoom,
    AList.lookup_insert, sfu.foldl_AddTrack, Room.subscriberSessions, List.map_map,
    Function.comp_def]

theorem sfu.onTracks_with_publisher (roomID : String) (ts : List TrackRemote) (w : World)
    (room : Room) (pub : Peer) (hroom : w.sfu.rooms.lookup roomID = some room)
    (hpub : room.Publisher = some pub) :
    (onTracks roomID ts w).sfu.rooms.lookup roomID =
        some { room with Publisher := (some
          { pub with Tracks := pub.Tracks ++ relayTracks w.webrtc.nextTrack ts }) }
      ∧ (onTracks roomID ts w).webrtc.addTrack =
          w.webrtc.addTrack ++ (relayTracks w.webrtc.nextTrack ts).flatMap
            (fun t => room.subscriberSessions.map (fun pc => (pc, t))) := by
  induction ts generalizing w room pub with
  | nil => simp [onTracks, relayTracks, hroom, ← hpub]
  | cons t ts ih =>
    have h1 := sfu.onTrack_with_publisher roomID t w room pub hroom hpub
    have hstep : onTracks roomID (t :: ts) w = onTracks roomID ts (onTrack roomID t true w) := rfl
    rw [hstep]
    have hroom1 : (onTrack roomID t true w).sfu.rooms.lookup roomID =
        some { room with Publisher := (some
          { pub with Tracks := pub.Tracks ++
              [{ ptr := w.webrtc.nextTrack, ID := t.ID, StreamID := t.StreamID }] }) } := by
      rw [h1]; simp [AList.lookup_insert]
    obtain ⟨ih1, ih2⟩ := ih (onTrack roomID t true w) _ _ hroom1 rfl
    have hnext : (onTrack roomID t true w).webrtc.nextTrack = w.webrtc.nextTrack + 1 := by
      rw [h1]
    have hadd : (onTrack roomID t true w).webrtc.addTrack =
        w.webrtc.addTrack ++ room.subscriberSessions.map
          (fun pc => (pc, { ptr := w.webrtc.nextTrack, ID := t.ID, StreamID := t.StreamID })) := by
      rw [h1]
    refine ⟨?_, ?_⟩
    · rw [ih1, hnext]
      simp [relayTracks, List.append_assoc]
    · rw [ih2, hnext, hadd]
      simp [relayTracks, List.append_assoc, Room.subscriberSessions]

theorem sfu.ptr_of_mem_relayTracks (next : Nat) (ts : List TrackRemote) (t : TrackLocalStaticRTP)
    (h : t ∈ relayTracks next ts) : next ≤ t.ptr := by
  induction ts generalizing next with
  | nil => simp [relayTracks] at h
  | cons r ts ih =>
    simp only [relayTracks, List.mem_cons] at h
    rcases h with rfl | h
    · exact Nat.le_refl _
    · exact Nat.le_of_succ_le (ih (next + 1) h)

theorem sfu.relayTracks_nodup (next : Nat) (ts : List TrackRemote) :
    (relayTracks next ts).Nodup := by
  induction ts generalizing next with
  | nil => simp [relayTracks]
  | cons r ts ih =>
    simp only [relayTracks, List.nodup_cons]
    refine ⟨?_, ih (next + 1)⟩
    intro hmem
    have := sfu.ptr_of_mem_relayTracks (next + 1) ts _ hmem
    simp at this

theorem sfu.relayTracks_length (next : Nat) (ts : List TrackRemote) :
    (relayTracks next ts).length = ts.length := by
  induction ts generalizing next with
  | nil => rfl
  | cons r ts ih => simp [relayTracks, ih]

theorem sfu.count_fanout (sessions : List Nat) (tracks : List TrackLocalStaticRTP)
    (hnd : tracks.Nodup) (pc : Nat) (t : TrackLocalStaticRTP) :
    (tracks.flatMap (fun t => sessions.map (fun pc => (pc, t)))).count (pc, t) =
      if t ∈ tracks then sessions.count pc else 0 := by
  have hblock : ∀ t0 : TrackLocalStaticRTP,
      (sessions.map (fun pc => (pc, t0))).count (pc, t) =
        if t0 = t then sessions.count pc else 0 := by
    intro t0
    induction sessions with
    | nil => simp
    | cons s ss ih =>
      rw [List.map_cons, List.count_cons, ih, List.count_cons]
      by_cases h0 : t0 = t
      · subst h0
        by_cases hs : s = pc <;> simp [hs]
      · have : ¬ ((s, t0) = (pc, t)) := by
          intro h; exact h0 (Prod.ext_iff.mp h).2
        simp [h0, this]
  induction tracks with
  | nil => simp
  | cons t0 ts ih =>
    rw [List.flatMap_cons, List.count_append, hblock, ih (List.nodup_cons.mp hnd).2]
    by_cases h0 : t0 = t
    · subst h0
      have hnot : t0 ∉ ts := (List.nodup_cons.mp hnd).1
      simp [hnot]
    · have hne : ¬ t = t0 := fun h => h0 h.symm
      simp [h0, hne]

/-- C9. The publisher's session reports the inbound media lines `remoteTracks` (K of
them, every relay track created) while the room holds its stored subscribers (S of
them). Afterwards the publisher's `Tracks` list is the one before followed by the K relay
tracks in arrival order; the `AddTrack` calls recorded by the media engine are the ones
before followed, for each relay track in turn, by one call on the session of each stored
subscriber; so for every session and every one of the K relay tracks the number of
recorded calls attaching that track to that session is the number of stored subscribers
holding that session: one for each subscriber when sessions are not shared, none for any
other session. The subscriber map is not changed. -/
theorem onTrack_fanout (roomID : String) (remoteTracks : List TrackRemote) (w : World)
    (room : Room) (pub : Peer) (hroom : w.sfu.rooms.lookup roomID = some room)
    (hpub : room.Publisher = some pub) :
    (relayTracks w.webrtc.nextTrack remoteTracks).length = remoteTracks.length
      ∧ (onTracks roomID remoteTracks w).sfu.rooms.lookup roomID =
          some { room with Publisher := (some
            { pub with Tracks := pub.Tracks ++ relayTracks w.webrtc.nextTrack remoteTracks }) }
      ∧ (∃ calls, (onTracks roomID remoteTracks w).webrtc.addTrack = w.webrtc.addTrack ++ calls
          ∧ calls = (relayTracks w.webrtc.nextTrack remoteTracks).flatMap
              (fun t => room.subscriberSessions.map (fun pc => (pc, t)))
          ∧ calls.length = remoteTracks.length * room.Subscribers.entries.length
          ∧ (∀ t ∈ relayTracks w.webrtc.nextTrack remoteTracks, ∀ pc,
              calls.count (pc, t) = room.subscriberSessions.count pc)
          ∧ (room.subscriberSessions.Nodup →
              ∀ t ∈ relayTracks w.webrtc.nextTrack remoteTracks,
                (∀ pc ∈ room.subscriberSessions, calls.count (pc, t) = 1)
                ∧ ∀ pc, pc ∉ room.subscriberSessions → calls.count (pc, t) = 0)
          ∧ ∀ pc t, t ∉ relayTracks w.webrtc.nextTrack remoteTracks → calls.count (pc, t) = 0) := by
  obtain ⟨h1, h2⟩ := sfu.onTracks_with_publisher roomID remoteTracks w room pub hroom hpub
  have hnd := sfu.relayTracks_nodup w.webrtc.nextTrack remoteTracks
  refine ⟨sfu.relayTracks_length _ _, h1, _, h2, rfl, ?_, ?_, ?_, ?_⟩
  · have hlen : ∀ tracks : List TrackLocalStaticRTP,
        (tracks.flatMap (fun t => room.subscriberSessions.map (fun pc => (pc, t)))).length =
          tracks.length * room.Subscribers.entries.length := by
      intro tracks
      induction tracks with
      | nil => simp
      | cons t ts ih =>
        rw [List.flatMap_cons, List.length_append, ih]
        simp [Room.subscriberSessions, Nat.succ_mul, Nat.add_comm]
    rw [hlen, sfu.relayTracks_length]
  · intro t ht pc
    rw [sfu.count_fanout _ _ hnd, if_pos ht]
  · intro hsess t ht
    refine ⟨?_, ?_⟩
    · intro pc hpc
      rw [sfu.count_fanout _ _ hnd, if_pos ht]
      exact List.count_eq_one_of_mem hsess hpc
    · intro pc hpc
      rw [sfu.count_fanout _ _ hnd, if_pos ht]
      exact List.count_eq_zero.mpr hpc
  · intro pc t ht
    rw [sfu.count_fanout _ _ hnd, if_neg ht]

end FanOut

/-! ## The SFU: instances on the scenario -/

section Scenario
open sfu

/-- The role assignment of C3 on the scenario: "pub", then "sub1" and "sub2", join the new
room "r1". -/
theorem HandleOffer_first_publisher_rest_subscribers_witness :
    "r1" ∉ World.new.sfu.rooms ∧
    ∃ pub : Peer, pub.ID = pubCaller.userID ∧
      ∀ n, ∃ room,
        (joinAll "r1" (pubCaller :: [sub1Caller, sub2Caller].take n) World.new).sfu.rooms.lookup "r1"
            = some room
        ∧ room.Publisher = some pub
        ∧ (∀ c ∈ [sub1Caller, sub2Caller].take n,
            ∃ p, room.Subscribers.lookup c.userID = some p ∧ p.ID = c.userID)
        ∧ (∀ u, u ∈ room.Subscribers ↔ ∃ c ∈ [sub1Caller, sub2Caller].take n, c.userID = u) :=
  ⟨by decide,
   HandleOffer_first_publisher_rest_subscribers "r1" World.new pubCaller [sub1Caller, sub2Caller]
     (by decide)⟩

theorem sfu.demoWorld_room : demoWorld.sfu.rooms.lookup "r1" = some demoRoom := rfl

/-- The two cases of C6 on the scenario: removing "pub" closes the sessions 0, 2 and 1
and deletes "r1"; removing "sub1" closes session 1 alone and keeps the room. -/
theorem RemovePeer_cases_witness :
    demoWorld.sfu.rooms.lookup "r1" = some demoRoom
    ∧ ((RemovePeer "r1" "pub" demoWorld).webrtc.close = [0, 2, 1]
        ∧ (RemovePeer "r1" "pub" demoWorld).webrtc.close.count 2 = demoWorld.webrtc.close.count 2 + 1
        ∧ "r1" ∉ (RemovePeer "r1" "pub" demoWorld).sfu.rooms)
    ∧ ((RemovePeer "r1" "sub1" demoWorld).webrtc.close = [1]
        ∧ (RemovePeer "r1" "sub1" demoWorld).sfu.rooms.lookup "r1" =
            some { demoRoom with Subscribers := demoRoom.Subscribers.erase "sub1" }) :=
  ⟨sfu.demoWorld_room,
   ⟨((RemovePeer_cases "r1" "pub" demoWorld demoRoom sfu.demoWorld_room).1
        { ID := "pub", RoomID := "r1", PeerConnection := 0, Tracks := [] } rfl rfl).1,
    (((RemovePeer_cases "r1" "pub" demoWorld demoRoom sfu.demoWorld_room).1
        { ID := "pub", RoomID := "r1", PeerConnection := 0, Tracks := [] } rfl rfl).2.1
        (by decide)).1 2 (by decide),
    ((RemovePeer_cases "r1" "pub" demoWorld demoRoom sfu.demoWorld_room).1
        { ID := "pub", RoomID := "r1", PeerConnection := 0, Tracks := [] } rfl rfl).2.2.1⟩,
   ⟨((RemovePeer_cases "r1" "sub1" demoWorld demoRoom sfu.demoWorld_room).2
        { ID := "sub1", RoomID := "r1", PeerConnection := 1, Tracks := [] }
        (by intro pub hpub; cases hpub; decide) rfl).1,
    ((RemovePeer_cases "r1" "sub1" demoWorld demoRoom sfu.demoWorld_room).2
        { ID := "sub1", RoomID := "r1", PeerConnection := 1, Tracks := [] }
        (by intro pub hpub; cases hpub; decide) rfl).2.1⟩⟩

/-- The fan-out of C9 on the scenario: an audio and a video line arrive while "sub1" and
"sub2" are stored. -/
theorem onTrack_fanout_witness :
    demoWorld.sfu.rooms.lookup "r1" = some demoRoom
    ∧ (onTracks "r1" [audioLine, videoLine] demoWorld).webrtc.addTrack =
        [(2, { ptr := 0, ID := "audio", StreamID := "stream" }),
         (1, { ptr := 0, ID := "audio", StreamID := "stream" }),
         (2, { ptr := 1, ID := "video", StreamID := "stream" }),
         (1, { ptr := 1, ID := "video", StreamID := "stream" })]
    ∧ (onTracks "r1" [audioLine, videoLine] demoWorld).publisherTracks "r1" =
        [{ ptr := 0, ID := "audio", StreamID := "stream" },
         { ptr := 1, ID := "video", StreamID := "stream" }] := by
  have h := onTrack_fanout "r1" [audioLine, videoLine] demoWorld demoRoom
    { ID := "pub", RoomID := "r1", PeerConnection := 0, Tracks := [] } sfu.demoWorld_room rfl
  obtain ⟨_, h2, calls, h3, h4, _⟩ := h
  refine ⟨sfu.demoWorld_room, ?_, ?_⟩
  · rw [h3, h4]; rfl
  · simp only [World.publisherTracks, h2]; rfl

/-- C1 fails on the code. At `raceStart` the join of "sub1" and the arrival of the audio
track interleave at the lock boundaries of sfu.go. When the snapshot is taken before the
callback appends the track and the subscriber is stored after the callback has walked
`room.Subscribers`, the track is attached to the subscriber by neither, although at the
end the track is in the publisher's list and the subscriber is stored. When the callback
appends the track (no lock held) before the snapshot and walks `room.Subscribers` after
the subscriber is stored, the track is attached by both. Only the two schedules that run
one activity after the other attach it exactly once. -/
theorem join_callback_race :
    (isInterleaving [.subscriberSnapshot, .callbackAppend, .callbackFanout, .subscriberStore] = true
      ∧ demoRace.attachCount (demoRace.run
          [.subscriberSnapshot, .callbackAppend, .callbackFanout, .subscriberStore] raceStart) = 0
      ∧ (demoRace.run [.subscriberSnapshot, .callbackAppend, .callbackFanout, .subscriberStore]
          raceStart).publisherTracks "r1" = [demoRace.localTrack]
      ∧ (demoRace.run [.subscriberSnapshot, .callbackAppend, .callbackFanout, .subscriberStore]
          raceStart).subscriberIDs "r1" = ["sub1"])
    ∧ (isInterleaving [.callbackAppend, .subscriberSnapshot, .subscriberStore, .callbackFanout] = true
      ∧ demoRace.attachCount (demoRace.run
          [.callbackAppend, .subscriberSnapshot, .subscriberStore, .callbackFanout] raceStart) = 2)
    ∧ demoRace.attachCount (demoRace.run
          [.subscriberSnapshot, .subscriberStore, .callbackAppend, .callbackFanout] raceStart) = 1
    ∧ demoRace.attachCount (demoRace.run
          [.callbackAppend, .callbackFanout, .subscriberSnapshot, .subscriberStore] raceStart) = 1 := by
  refine ⟨⟨by decide, by decide, rfl, rfl⟩, ⟨by decide, by decide⟩, by decide, by decide⟩

end Scenario

/-! ## The Hub: membership -/

section Membership
open signaling

theorem signaling.registerClient_noEmptyRoom (client : Client) (h : Hub)
    (hinv : NoEmptyRoom h) : NoEmptyRoom (registerClient client h) := by
  intro roomID clients hl
  by_cases hk : roomID = client.roomID
  · subst hk
    simp only [registerClient, AList.lookup_insert, Option.some.injEq] at hl
    subst hl
    exact ⟨client, by simp [AList.mem_insert]⟩
  · simp only [registerClient, AList.lookup_insert_ne hk] at hl
    exact hinv roomID clients hl

theorem signaling.unregisterClient_noEmptyRoom (client : Client) (h h1 : Hub)
    (hstep : unregisterClient client h = .ok h1) (hinv : NoEmptyRoom h) : NoEmptyRoom h1 := by
  unfold unregisterClient at hstep
  split at hstep
  · cases hstep; exact hinv
  · rename_i clients hlook
    split at hstep
    · split at hstep
      · cases hstep
      · dsimp only at hstep
        split at hstep
        · cases hstep
          intro roomID cs hl
          by_cases hk : roomID = client.roomID
          · subst hk
            simp [AList.lookup_erase] at hl
          · simp only [AList.lookup_erase_ne hk] at hl
            exact hinv roomID cs hl
        · rename_i hlen
          cases hstep
          intro roomID cs hl
          by_cases hk : roomID = client.roomID
          · subst hk
            simp only [AList.lookup_insert, Option.some.injEq] at hl
            subst hl
            cases hkeys : (clients.erase client).keys with
            | nil => simp [hkeys] at hlen
            | cons c rest =>
              exact ⟨c, by rw [AList.mem_keys, hkeys]; exact List.mem_cons_self _ _⟩
          · simp only [AList.lookup_insert_ne hk] at hl
            exact hinv roomID cs hl
    · cases hstep; exact hinv

end Membership

/-! ## The Hub: broadcast -/

section Broadcast
open signaling

theorem signaling.trySend_open (client : Client) (m : Message) (send : Client → Chan)
    (hopen : (send client).closed = false) :
    trySend client m send = .ok (Function.update send client (offered m (send client))) := by
  unfold trySend offered
  simp only [hopen, Bool.false_eq_true, if_false]
  split
  · rfl
  · simp

/-- The loop of `broadcastToRoom` over clients without repetition whose channels are
open: it completes, and the channel of a client is the one before with the message
offered once when the client is in the list and is not the sender, and the one before
otherwise. -/
theorem signaling.foldlM_broadcastStep (b : BroadcastMessage) (l : List Client) (hnd : l.Nodup)
    (send : Client → Chan) (hopen : ∀ c ∈ l, (send c).closed = false) :
    ∃ send1, l.foldlM (broadcastStep b) send = .ok send1
      ∧ ∀ c, send1 c =
          if c ∈ l ∧ b.Sender ≠ some c then offered b.Message (send c) else send c := by
  induction l generalizing send with
  | nil => exact ⟨send, rfl, by simp⟩
  | cons c0 l ih =>
    have hnot : c0 ∉ l := (List.nodup_cons.mp hnd).1
    have hnd1 : l.Nodup := (List.nodup_cons.mp hnd).2
    by_cases hs : b.Sender = some c0
    · obtain ⟨send1, h1, h2⟩ := ih hnd1 send (fun c hc => hopen c (List.mem_cons_of_mem _ hc))
      refine ⟨send1, ?_, ?_⟩
      · simp only [List.foldlM_cons, broadcastStep, hs, if_true]
        exact h1
      · intro c
        rw [h2 c]
        by_cases hc : c = c0
        · subst hc
          simp [hnot, hs]
        · simp [hc]
    · have hopen0 : (send c0).closed = false := hopen c0 (List.mem_cons_self _ _)
      have hopen1 : ∀ c ∈ l,
          (Function.update send c0 (offered b.Message (send c0)) c).closed = false := by
        intro c hc
        have hne : c ≠ c0 := fun h => hnot (h ▸ hc)
        rw [Function.update_noteq hne]
        exact hopen c (List.mem_cons_of_mem _ hc)
      obtain ⟨send1, h1, h2⟩ := ih hnd1 _ hopen1
      refine ⟨send1, ?_, ?_⟩
      · have hstep : broadcastStep b send c0 =
            .ok (Function.update send c0 (offered b.Message (send c0))) := by
          simp only [broadcastStep, hs, if_false]
          exact signaling.trySend_open c0 b.Message send hopen0
        simp only [List.foldlM_cons, hstep]
        exact h1
      · intro c
        rw [h2 c]
        by_cases hc : c = c0
        · subst hc
          simp [hnot, hs]
        · simp [hc, Function.update_noteq hc]

/-- C2. `broadcastToRoom` on a Hub in which the channel of no client registered in the
room is closed (a registered client's channel is closed only by the step that removes it
from the room). The operation completes; it changes neither the membership map nor the
SFU; the queue of the client equal to the sender is unchanged; the queue of every other
client registered in the room is the one before with the message enqueued once at its
end when it held fewer than 256 messages, and is unchanged when it was full; the queue of
every client not registered in the room is unchanged; and for a room id that is not in
the membership map the Hub is unchanged. -/
theorem broadcastToRoom_delivery (b : BroadcastMessage) (h : Hub)
    (hopen : ∀ c, h.registered b.RoomID c → (h.send c).closed = false) :
    ∃ h1, broadcastToRoom b h = .ok h1
      ∧ h1.rooms = h.rooms ∧ h1.sfu = h.sfu
      ∧ (∀ c, b.Sender = some c → h1.send c = h.send c)
      ∧ (∀ c, h.registered b.RoomID c → b.Sender ≠ some c →
          (h.send c).buf.length < sendCapacity →
          h1.send c = { h.send c with buf := (h.send c).buf ++ [b.Message] })
      ∧ (∀ c, h.registered b.RoomID c → sendCapacity ≤ (h.send c).buf.length →
          h1.send c = h.send c)
      ∧ (∀ c, ¬ h.registered b.RoomID c → h1.send c = h.send c)
      ∧ (b.RoomID ∉ h.rooms → h1 = h) := by
  cases hl : h.rooms.lookup b.RoomID with
  | none =>
    refine ⟨h, by simp [broadcastToRoom, hl], rfl, rfl, ?_, ?_, ?_, ?_, ?_⟩
    · intro c _; rfl
    · rintro c ⟨clients, hc, _⟩ _ _
      rw [hl] at hc; cases hc
    · intro c _ _; rfl
    · intro c _; rfl
    · intro _; rfl
  | some clients =>
    have hopen1 : ∀ c ∈ clients.keys, (h.send c).closed = false :=
      fun c hc => hopen c ⟨clients, hl, AList.mem_keys.mpr hc⟩
    obtain ⟨send1, h1, h2⟩ :=
      signaling.foldlM_broadcastStep b clients.keys clients.keys_nodup h.send hopen1
    have hreg : ∀ c, h.registered b.RoomID c ↔ c ∈ clients.keys := by
      intro c
      constructor
      · rintro ⟨cs, hcs, hc⟩
        rw [hl] at hcs; cases hcs
        exact AList.mem_keys.mp hc
      · intro hc
        exact ⟨clients, hl, AList.mem_keys.mpr hc⟩
    refine ⟨{ h with send := send1 }, by simp [broadcastToRoom, hl, h1], rfl, rfl,
      ?_, ?_, ?_, ?_, ?_⟩
    · intro c hs
      show send1 c = h.send c
      rw [h2 c]; simp [hs]
    · intro c hc hs hlen
      show send1 c = _
      rw [h2 c, if_pos ⟨(hreg c).mp hc, hs⟩]
      simp [offered, hlen]
    · intro c hc hlen
      show send1 c = h.send c
      rw [h2 c]
      have : ¬ (h.send c).buf.length < sendCapacity := Nat.not_lt.mpr hlen
      split
      · simp [offered, this]
      · rfl
    · intro c hc
      show send1 c = h.send c
      rw [h2 c, if_neg]
      intro hcon
      exact hc ((hreg c).mpr hcon.1)
    · intro hnot
      exact absurd (AList.lookup_eq_none.mpr hnot) (by rw [hl]; simp)

end Broadcast

/-! ## The Hub: a publisher disconnects, a client leaves -/

section Disconnect
open signaling

theorem sfu.RemovePeer_of_publisher (roomID userID : String) (w : sfu.World) (room : sfu.Room)
    (pub : sfu.Peer) (hroom : w.sfu.rooms.lookup roomID = some room)
    (hpub : room.Publisher = some pub) (hid : pub.ID = userID) :
    sfu.RemovePeer roomID userID w =
      { sfu := { rooms := w.sfu.rooms.erase roomID },
        webrtc := { w.webrtc with
          close := w.webrtc.close ++ pub.PeerConnection :: room.subscriberSessions } } := by
  have hfold : ∀ (l : List (Sigma (fun _ : String => sfu.Peer))) (e : sfu.Engine),
      l.foldl (fun e subscriber => e.Close subscriber.2.PeerConnection) e =
        { e with close := e.close ++ l.map (fun s => s.2.PeerConnection) } := by
    intro l
    induction l with
    | nil => intro e; simp
    | cons s l ih =>
      intro e
      rw [List.foldl_cons, ih]
      simp [sfu.Engine.Close]
  simp only [sfu.RemovePeer, hroom, hpub, hid, if_true, hfold, sfu.Room.subscriberSessions]
  simp [sfu.Engine.Close]

/-- C5, as stated, fails. The scenario runs without a panic and reaches a Hub in which
"pub", "sub1" and "sub2" are registered in "r1", the SFU room "r1" has the subscribers
"sub1" and "sub2" and one relay track, and no session is closed. Unregistering the client
of "pub" then removes "r1" from the SFU's room map and closes the sessions 0, 2 and 1, but
"r1" is still a key of the Hub's membership map, with the clients of "sub2" and "sub1" as
members. -/
theorem unregister_publisher_keeps_hub_room :
    scenario.map Hub.view =
        .ok (["r1"], [sub2Client, sub1Client, pubClient], ["r1"], ["sub2", "sub1"],
             [{ ptr := 0, ID := "audio", StreamID := "stream" }], [])
    ∧ (scenario.bind (unregisterClient pubClient)).map Hub.view =
        .ok (["r1"], [sub2Client, sub1Client], [], [], [], [0, 2, 1]) := by
  refine ⟨rfl, rfl⟩

/-- C5, amended. Unregistering a client that is registered in its room with an open
channel, and whose user id is the id of the publisher of the SFU room of that id,
completes; afterwards the room id is not in the SFU's room map, one `Close` is recorded
for the publisher's session and one for the session of every subscriber of the room, the
client's channel is closed, and the room id is a key of the Hub's membership map if and
only if another client was registered in the room. -/
theorem unregister_publisher_client (c : Client) (h : Hub)
    (clients : AList (fun _ : Client => Bool)) (room : sfu.Room) (pub : sfu.Peer)
    (hl : h.rooms.lookup c.roomID = some clients) (hc : c ∈ clients)
    (hopen : (h.send c).closed = false)
    (hroom : h.sfu.sfu.rooms.lookup c.roomID = some room)
    (hpub : room.Publisher = some pub) (hid : pub.ID = c.userID) :
    ∃ h1, unregisterClient c h = .ok h1
      ∧ c.roomID ∉ h1.sfu.sfu.rooms
      ∧ h1.sfu.webrtc.close =
          h.sfu.webrtc.close ++ pub.PeerConnection :: room.subscriberSessions
      ∧ (h1.send c).closed = true
      ∧ (c.roomID ∈ h1.rooms ↔ ∃ c1, c1 ≠ c ∧ c1 ∈ clients) := by
  have hrem := sfu.RemovePeer_of_publisher c.roomID c.userID h.sfu room pub hroom hpub hid
  by_cases hlen : (clients.erase c).keys.length = 0
  · refine ⟨{ rooms := h.rooms.erase c.roomID,
              sfu := sfu.RemovePeer c.roomID c.userID h.sfu,
              send := Function.update h.send c { h.send c with closed := true } },
            ?_, ?_, ?_, ?_, ?_⟩
    · simp only [unregisterClient, hl, hc, hopen, hlen, if_true, if_false, Bool.false_eq_true]
    · rw [hrem]; simp [AList.mem_erase]
    · rw [hrem]
    · simp
    · constructor
      · intro hmem
        simp [AList.mem_erase] at hmem
      · rintro ⟨c1, hne, hc1⟩
        have hmem : c1 ∈ (clients.erase c).keys :=
          AList.mem_keys.mp (AList.mem_erase.mpr ⟨hne, hc1⟩)
        rw [List.length_eq_zero.mp hlen] at hmem
        simp at hmem
  · refine ⟨{ rooms := h.rooms.insert c.roomID (clients.erase c),
              sfu := sfu.RemovePeer c.roomID c.userID h.sfu,
              send := Function.update h.send c { h.send c with closed := true } },
            ?_, ?_, ?_, ?_, ?_⟩
    · simp only [unregisterClient, hl, hc, hopen, hlen, if_true, if_false, Bool.false_eq_true]
    · rw [hrem]; simp [AList.mem_erase]
    · rw [hrem]
    · simp
    · constructor
      · intro _
        cases hkeys : (clients.erase c).keys with
        | nil => simp [hkeys] at hlen
        | cons c1 rest =>
          have hc1 : c1 ∈ clients.erase c := by
            rw [AList.mem_keys, hkeys]; exact List.mem_cons_self _ _
          have hc1' := AList.mem_erase.mp hc1
          exact ⟨c1, hc1'.1, hc1'.2⟩
      · intro _
        simp [AList.mem_insert]

/-- The amended C5 on the Hub of the scenario. -/
theorem unregister_publisher_client_witness :
    (demoHub.send pubClient).closed = false
    ∧ ∃ h1, unregisterClient pubClient demoHub = .ok h1
      ∧ pubClient.roomID ∉ h1.sfu.sfu.rooms
      ∧ h1.sfu.webrtc.close =
          demoHub.sfu.webrtc.close ++ 0 :: sfu.demoRoom.subscriberSessions
      ∧ (h1.send pubClient).closed = true
      ∧ (pubClient.roomID ∈ h1.rooms ↔
          ∃ c1, c1 ≠ pubClient ∧ c1 ∈
            demoClients) :=
  ⟨rfl,
   unregister_publisher_client pubClient demoHub
     demoClients sfu.demoRoom { ID := "pub", RoomID := "r1", PeerConnection := 0, Tracks := [] }
     rfl (by decide) rfl sfu.demoWorld_room rfl rfl⟩

/-- C8 fails on the code. "pub" connects to "r1" and sends a leave message: the Hub
unregisters the client, which closes its channel and empties the room. `readPump` goes on
reading, and when an offer arrives next that the media engine negotiates, `handleOffer`
sends the answer on the closed channel: the run ends in the panic "send on closed
channel". -/
theorem offer_after_leave_sends_on_closed_channel :
    (pubClient.readMessages [(leaveMessage, accept "")] soloHub).map
        (fun h => ((h.send pubClient).closed, h.members "r1")) = .ok (true, [])
    ∧ pubClient.readMessages
        [(leaveMessage, accept ""), (offerMessage "offer-pub", accept "answer-pub")] soloHub
        = .error (.sendOnClosedChannel pubClient) := by
  refine ⟨rfl, rfl⟩

end Disconnect

/-! ## The Hub: instances on the scenario -/

section HubScenario
open signaling

theorem signaling.fullHub_registered (c : Client) (hc : c ∈ demoClients) :
    fullHub.registered "r1" c :=
  ⟨demoClients, rfl, hc⟩

/-- The delivery of C2 on the Hub of the scenario with the queue of "sub1" full: a
broadcast sent by "pub" reaches "sub2" once, is dropped for "sub1" and is not delivered to
"pub". -/
theorem broadcastToRoom_delivery_witness :
    (∀ c, fullHub.registered "r1" c → (fullHub.send c).closed = false)
    ∧ ∃ h1, broadcastToRoom
          { RoomID := "r1", Message := offerMessage "v=0", Sender := some pubClient } fullHub
          = .ok h1
        ∧ (h1.send pubClient).buf = []
        ∧ (h1.send sub2Client).buf = [offerMessage "v=0"]
        ∧ (h1.send sub1Client).buf = List.replicate 256 leaveMessage := by
  have hopen : ∀ c, fullHub.registered "r1" c → (fullHub.send c).closed = false := by
    intro c _
    show (if c = sub1Client then _ else _ : Chan).closed = false
    split <;> rfl
  obtain ⟨h1, hb, _, _, hsender, hroomy, hfull, _, _⟩ :=
    broadcastToRoom_delivery
      { RoomID := "r1", Message := offerMessage "v=0", Sender := some pubClient } fullHub hopen
  have hsub1 : fullHub.send sub1Client =
      { buf := List.replicate 256 leaveMessage, closed := false } := by
    show (if sub1Client = sub1Client then
        ({ buf := List.replicate 256 leaveMessage, closed := false } : Chan)
      else Chan.make) = _
    exact if_pos rfl
  have hlen : sendCapacity ≤ (fullHub.send sub1Client).buf.length := by
    rw [hsub1]
    show sendCapacity ≤ (List.replicate 256 leaveMessage).length
    rw [List.length_replicate]
    exact Nat.le_refl _
  refine ⟨hopen, h1, hb, ?_, ?_, ?_⟩
  · rw [hsender pubClient rfl]; rfl
  · rw [hroomy sub2Client (signaling.fullHub_registered _ (by decide)) (by decide) (by decide)]
    rfl
  · rw [hfull sub1Client (signaling.fullHub_registered _ (by decide)) hlen, hsub1]

end HubScenario

/-! ## The Hub: registered clients have open channels -/

section OpenChannels
open signaling

theorem signaling.registered_registerClient (client : Client) (h : Hub) (roomID : String)
    (c : Client) (hreg : (registerClient client h).registered roomID c) :
    h.registered roomID c ∨ (roomID = client.roomID ∧ c = client) := by
  obtain ⟨clients, hl, hc⟩ := hreg
  by_cases hk : roomID = client.roomID
  · subst hk
    simp only [registerClient, AList.lookup_insert, Option.some.injEq] at hl
    subst hl
    rcases (AList.mem_insert _).mp hc with rfl | hc
    · exact Or.inr ⟨rfl, rfl⟩
    · cases hl0 : h.rooms.lookup client.roomID with
      | none => simp [hl0] at hc
      | some cs =>
        simp only [hl0] at hc
        exact Or.inl ⟨cs, hl0, hc⟩
  · simp only [registerClient, AList.lookup_insert_ne hk] at hl
    exact Or.inl ⟨clients, hl, hc⟩

theorem signaling.wellFormed_HandleWebSocket (roomID userID : String) (conn : Nat) (h : Hub)
    (hwf : WellFormed h) : WellFormed (HandleWebSocket roomID userID conn h) := by
  unfold HandleWebSocket
  split
  · exact hwf
  · intro r c hreg
    rcases signaling.registered_registerClient _ _ r c hreg with hold | ⟨hr, hc⟩
    · have h0 := hwf r c hold
      refine ⟨h0.1, ?_⟩
      show (Function.update h.send _ Chan.make c).closed = false
      by_cases hcc : c = { conn := conn, roomID := roomID, userID := userID }
      · rw [hcc, Function.update_same]; rfl
      · rw [Function.update_noteq hcc]; exact h0.2
    · subst hc hr
      refine ⟨rfl, ?_⟩
      show (Function.update h.send _ Chan.make _).closed = false
      rw [Function.update_same]; rfl

theorem signaling.wellFormed_unregisterClient (client : Client) (h h1 : Hub)
    (hstep : unregisterClient client h = .ok h1) (hwf : WellFormed h) : WellFormed h1 := by
  unfold unregisterClient at hstep
  split at hstep
  · cases hstep; exact hwf
  · rename_i clients hlook
    split at hstep
    · split at hstep
      · cases hstep
      · have hkey : ∀ r c, (r = client.roomID → c ∈ clients.erase client) →
            (r ≠ client.roomID → h.registered r c) →
            c.roomID = r ∧
              (Function.update h.send client { h.send client with closed := true } c).closed
                = false := by
          intro r c hsame hother
          have hold : h.registered r c := by
            by_cases hk : r = client.roomID
            · exact ⟨clients, hk ▸ hlook, (AList.mem_erase.mp (hsame hk)).2⟩
            · exact hother hk
          have h0 := hwf r c hold
          refine ⟨h0.1, ?_⟩
          have hne : c ≠ client := by
            intro hcc
            subst hcc
            exact (AList.mem_erase.mp (hsame h0.1.symm)).1 rfl
          rw [Function.update_noteq hne]
          exact h0.2
        dsimp only at hstep
        split at hstep
        · cases hstep
          rintro r c ⟨cs, hl, hc⟩
          by_cases hk : r = client.roomID
          · subst hk
            simp [AList.lookup_erase] at hl
          · rw [AList.lookup_erase_ne hk] at hl
            exact hkey r c (fun hr => absurd hr hk) (fun _ => ⟨cs, hl, hc⟩)
        · cases hstep
          rintro r c ⟨cs, hl, hc⟩
          by_cases hk : r = client.roomID
          · subst hk
            simp only [AList.lookup_insert, Option.some.injEq] at hl
            subst hl
            exact hkey _ c (fun _ => hc) (fun hne => absurd rfl hne)
          · rw [AList.lookup_insert_ne hk] at hl
            exact hkey r c (fun hr => absurd hr hk) (fun _ => ⟨cs, hl, hc⟩)
    · cases hstep; exact hwf

theorem signaling.trySend_closed (client : Client) (m : Message) (send send1 : Client → Chan)
    (hstep : trySend client m send = .ok send1) (c : Client) :
    (send1 c).closed = (send c).closed := by
  unfold trySend at hstep
  split at hstep
  · cases hstep
  · split at hstep
    · cases hstep
      by_cases hc : c = client
      · subst hc; rw [Function.update_same]
      · rw [Function.update_noteq hc]
    · cases hstep; rfl

theorem signaling.wellFormed_broadcastToRoom (b : BroadcastMessage) (h h1 : Hub)
    (hstep : broadcastToRoom b h = .ok h1) (hwf : WellFormed h) : WellFormed h1 := by
  unfold broadcastToRoom at hstep
  split at hstep
  · cases hstep; exact hwf
  · rename_i clients hlook
    have hopen : ∀ c ∈ clients.keys, (h.send c).closed = false :=
      fun c hc => (hwf b.RoomID c ⟨clients, hlook, AList.mem_keys.mpr hc⟩).2
    obtain ⟨send1, h1eq, h2⟩ :=
      signaling.foldlM_broadcastStep b clients.keys clients.keys_nodup h.send hopen
    rw [h1eq] at hstep
    cases hstep
    intro r c hreg
    have h0 := hwf r c hreg
    refine ⟨h0.1, ?_⟩
    show (send1 c).closed = false
    rw [h2 c]
    split
    · unfold offered
      split
      · exact h0.2
      · exact h0.2
    · exact h0.2

theorem signaling.wellFormed_handleMessage (c : Client) (msg : Message) (reply : EngineReply)
    (h h1 : Hub) (hstep : c.handleMessage msg reply h = .ok h1) (hwf : WellFormed h) :
    WellFormed h1 := by
  unfold Client.handleMessage at hstep
  split at hstep
  · cases hstep; exact hwf
  · split at hstep
    · unfold Client.handleOffer at hstep
      split at hstep
      · cases hstep; exact hwf
      · split at hstep
        · cases hstep; exact hwf
        · rename_i answerSDP w1 _
          dsimp only at hstep
          split at hstep
          · cases hstep
          · rename_i send1 hsend
            cases hstep
            intro r c1 hreg
            have h0 := hwf r c1 hreg
            refine ⟨h0.1, ?_⟩
            show (send1 c1).closed = false
            rw [signaling.trySend_closed _ _ _ _ hsend c1]
            exact h0.2
    · split at hstep
      · exact signaling.wellFormed_broadcastToRoom _ h h1 hstep hwf
      · split at hstep
        · cases hstep; exact hwf
        · split at hstep
          · exact signaling.wellFormed_unregisterClient c h h1 hstep hwf
          · cases hstep; exact hwf

/-- In every state of a run of the server, every registered client is registered under
its own room id and its channel is open, which is the premise under which the delivery
of a broadcast is stated. -/
theorem signaling.running_wellFormed (h : Hub) (hr : Running h) : WellFormed h := by
  induction hr with
  | start =>
    rintro r c ⟨clients, hl, _⟩
    simp [NewHub] at hl
  | connect roomID userID conn h _ ih => exact signaling.wellFormed_HandleWebSocket _ _ _ h ih
  | message c msg reply h h1 _ hstep ih =>
    exact signaling.wellFormed_handleMessage c msg reply h h1 hstep ih
  | disconnect c h h1 _ hstep ih => exact signaling.wellFormed_unregisterClient c h h1 hstep ih
  | track roomKey t created h _ ih => exact ih

end OpenChannels

/-! ## The Hub: the membership map against the history of events -/

section MembershipHistory
open signaling

theorem signaling.registered_registerClient_iff (client : Client) (h : Hub) (roomID : String)
    (c : Client) :
    (registerClient client h).registered roomID c ↔
      h.registered roomID c ∨ (roomID = client.roomID ∧ c = client) := by
  constructor
  · exact signaling.registered_registerClient client h roomID c
  · rintro (⟨clients, hl, hc⟩ | ⟨rfl, rfl⟩)
    · by_cases hk : roomID = client.roomID
      · subst hk
        refine ⟨clients.insert client true, ?_, ?_⟩
        · simp [registerClient, hl, AList.lookup_insert]
        · exact (AList.mem_insert _).mpr (Or.inr hc)
      · exact ⟨clients, by simp [registerClient, AList.lookup_insert_ne hk, hl], hc⟩
    · refine ⟨(match h.rooms.lookup c.roomID with
          | none => (∅ : AList (fun _ : Client => Bool))
          | some clients => clients).insert c true, ?_, ?_⟩
      · simp only [registerClient, AList.lookup_insert]
      · exact (AList.mem_insert _).mpr (Or.inl rfl)

theorem signaling.registered_of_lookup (h : Hub) (roomID : String)
    (clients : AList (fun _ : Client => Bool)) (hl : h.rooms.lookup roomID = some clients)
    (c : Client) : h.registered roomID c ↔ c ∈ clients := by
  constructor
  · rintro ⟨cs, hcs, hc⟩
    rw [hl] at hcs
    cases hcs
    exact hc
  · intro hc
    exact ⟨clients, hl, hc⟩

/-- A completed `unregisterClient` on a Hub whose members sit in their own rooms removes
the client and nobody else. -/
theorem signaling.registered_unregisterClient_iff (client : Client) (h h1 : Hub)
    (hstep : unregisterClient client h = .ok h1)
    (hown : ∀ r c, h.registered r c → c.roomID = r) (roomID : String) (c : Client) :
    h1.registered roomID c ↔ h.registered roomID c ∧ c ≠ client := by
  have hkeep : ∀ clients, h.rooms.lookup client.roomID = some clients → client ∉ clients →
      (h.registered roomID c ↔ h.registered roomID c ∧ c ≠ client) := by
    intro clients hl hnot
    constructor
    · intro hreg
      refine ⟨hreg, ?_⟩
      rintro rfl
      have hr := hown roomID c hreg
      subst hr
      exact hnot ((signaling.registered_of_lookup h _ clients hl c).mp hreg)
    · exact fun hreg => hreg.1
  unfold unregisterClient at hstep
  split at hstep
  · rename_i hnone
    cases hstep
    constructor
    · intro hreg
      refine ⟨hreg, ?_⟩
      rintro rfl
      have hr := hown roomID c hreg
      subst hr
      obtain ⟨cs, hcs, _⟩ := hreg
      rw [hnone] at hcs
      cases hcs
    · exact fun hreg => hreg.1
  · rename_i clients hlook
    split at hstep
    · rename_i hmem
      split at hstep
      · cases hstep
      · dsimp only at hstep
        split at hstep
        · rename_i hlen
          cases hstep
          have hnil : (clients.erase client).keys = [] := List.length_eq_zero.mp hlen
          constructor
          · rintro ⟨cs, hl, hc⟩
            by_cases hk : roomID = client.roomID
            · subst hk
              simp [AList.lookup_erase] at hl
            · rw [AList.lookup_erase_ne hk] at hl
              refine ⟨⟨cs, hl, hc⟩, ?_⟩
              rintro rfl
              exact hk (hown roomID c ⟨cs, hl, hc⟩).symm
          · rintro ⟨hreg, hne⟩
            by_cases hk : roomID = client.roomID
            · subst hk
              have hc : c ∈ clients := (signaling.registered_of_lookup h _ clients hlook c).mp hreg
              have hc1 : c ∈ (clients.erase client).keys :=
                AList.mem_keys.mp (AList.mem_erase.mpr ⟨hne, hc⟩)
              rw [hnil] at hc1
              simp at hc1
            · obtain ⟨cs, hl, hc⟩ := hreg
              exact ⟨cs, by simp only [AList.lookup_erase_ne hk]; exact hl, hc⟩
        · cases hstep
          by_cases hk : roomID = client.roomID
          · subst hk
            rw [signaling.registered_of_lookup _ _ (clients.erase client)
                (by simp only [AList.lookup_insert]) c,
              signaling.registered_of_lookup h _ clients hlook c, AList.mem_erase]
            exact And.comm
          · constructor
            · rintro ⟨cs, hl, hc⟩
              rw [AList.lookup_insert_ne hk] at hl
              refine ⟨⟨cs, hl, hc⟩, ?_⟩
              rintro rfl
              exact hk (hown roomID c ⟨cs, hl, hc⟩).symm
            · rintro ⟨⟨cs, hl, hc⟩, _⟩
              exact ⟨cs, by simp only [AList.lookup_insert_ne hk]; exact hl, hc⟩
    · rename_i hnot
      cases hstep
      exact hkeep clients hlook hnot

theorem signaling.runEvents_append (events : List HubEvent) (e : HubEvent) (h0 h : Hub)
    (hrun : runEvents (events ++ [e]) h0 = .ok h) :
    ∃ hmid, runEvents events h0 = .ok hmid ∧ e.handle hmid = .ok h := by
  unfold runEvents at hrun
  rw [List.foldlM_append] at hrun
  cases hmid : List.foldlM (fun h e => e.handle h) h0 events with
  | error p =>
    rw [hmid] at hrun
    cases hrun
  | ok hm =>
    rw [hmid] at hrun
    refine ⟨hm, hmid, ?_⟩
    simpa [List.foldlM_cons, List.foldlM_nil] using hrun

theorem signaling.registeredAfter_append (events : List HubEvent) (e : HubEvent) :
    registeredAfter (events ++ [e]) =
      match e with
      | .register client =>
        if client ∈ registeredAfter events then registeredAfter events
        else client :: registeredAfter events
      | .unregister client => (registeredAfter events).filter (fun c => c ≠ client) := by
  simp only [registeredAfter, List.foldl_append, List.foldl_cons, List.foldl_nil]

/-- The membership map after a run of the event loop from a Hub without rooms holds
exactly the clients the history of events leaves registered, each under its own room id,
and no room with an empty member map. -/
theorem signaling.runEvents_registered (h0 : Hub) (hempty : h0.rooms = ∅)
    (events : List HubEvent) (h : Hub) (hrun : runEvents events h0 = .ok h) :
    (∀ roomID c, h.registered roomID c ↔ c ∈ registeredAfter events ∧ c.roomID = roomID)
      ∧ NoEmptyRoom h := by
  induction events using List.reverseRecOn generalizing h with
  | nil =>
    have hh : h = h0 := by
      simp only [runEvents, List.foldlM_nil] at hrun
      cases hrun
      rfl
    subst hh
    refine ⟨?_, ?_⟩
    · intro roomID c
      constructor
      · rintro ⟨clients, hl, _⟩
        rw [hempty] at hl
        simp at hl
      · rintro ⟨hc, _⟩
        simp [registeredAfter] at hc
    · intro roomID clients hl
      rw [hempty] at hl
      simp at hl
  | append_singleton events e ih =>
    obtain ⟨hmid, hrun1, hstep⟩ := signaling.runEvents_append events e h0 h hrun
    obtain ⟨ih1, ih2⟩ := ih hmid hrun1
    cases e with
    | register client =>
      simp only [HubEvent.handle, Except.ok.injEq] at hstep
      subst hstep
      refine ⟨?_, signaling.registerClient_noEmptyRoom client hmid ih2⟩
      intro roomID c
      rw [signaling.registered_registerClient_iff, ih1, signaling.registeredAfter_append]
      by_cases hin : client ∈ registeredAfter events
      · simp only [hin, if_true]
        constructor
        · rintro (hreg | ⟨rfl, rfl⟩)
          · exact hreg
          · exact ⟨hin, rfl⟩
        · exact fun hreg => Or.inl hreg
      · simp only [hin, if_false, List.mem_cons]
        constructor
        · rintro (⟨hc, hr⟩ | ⟨rfl, rfl⟩)
          · exact ⟨Or.inr hc, hr⟩
          · exact ⟨Or.inl rfl, rfl⟩
        · rintro ⟨rfl | hc, hr⟩
          · exact Or.inr ⟨hr.symm, rfl⟩
          · exact Or.inl ⟨hc, hr⟩
    | unregister client =>
      simp only [HubEvent.handle] at hstep
      have hown : ∀ r c, hmid.registered r c → c.roomID = r :=
        fun r c hreg => ((ih1 r c).mp hreg).2
      refine ⟨?_, signaling.unregisterClient_noEmptyRoom client hmid h hstep ih2⟩
      intro roomID c
      rw [signaling.registered_unregisterClient_iff client hmid h hstep hown, ih1,
        signaling.registeredAfter_append]
      simp only [List.mem_filter, decide_eq_true_eq]
      constructor
      · rintro ⟨⟨hc, hr⟩, hne⟩
        exact ⟨⟨hc, hne⟩, hr⟩
      · rintro ⟨⟨hc, hne⟩, hr⟩
        exact ⟨⟨hc, hr⟩, hne⟩

/-- In every state of a run of the server `unregisterClient` completes: the only panic is
the close of a closed channel, and the channel of a registered client is open. -/
theorem signaling.unregisterClient_completes (client : Client) (h : Hub) (hwf : WellFormed h) :
    ∃ h1, unregisterClient client h = .ok h1 := by
  unfold unregisterClient
  split
  · exact ⟨_, rfl⟩
  · rename_i clients hlook
    split
    · rename_i hmem
      have hopen := (hwf client.roomID client ⟨clients, hlook, hmem⟩).2
      simp only [hopen, Bool.false_eq_true, if_false]
      split
      · exact ⟨_, rfl⟩
      · exact ⟨_, rfl⟩
    · exact ⟨_, rfl⟩

/-- C7. The event loop handles any sequence of `registerClient` and `unregisterClient`
events from a Hub without rooms. In the state it reaches, a client is a member of a room
of the membership map if and only if the history leaves it registered (registered and
not unregistered since) and the room is its own; a room id is a key of the map if and
only if the history leaves at least one client of that room registered; and when the
history leaves exactly one client of a room registered and its channel is open,
unregistering it completes and the room id is not a key of the map afterwards, while
every other room id is a key exactly when it was one before. -/
theorem Hub_room_key_iff_member (h0 : Hub) (hempty : h0.rooms = ∅) (events : List HubEvent)
    (h : Hub) (hrun : runEvents events h0 = .ok h) :
    (∀ roomID c, h.registered roomID c ↔ c ∈ registeredAfter events ∧ c.roomID = roomID)
    ∧ (∀ roomID, roomID ∈ h.rooms ↔ ∃ c ∈ registeredAfter events, c.roomID = roomID)
    ∧ ∀ c, c ∈ registeredAfter events →
        (∀ c1 ∈ registeredAfter events, c1.roomID = c.roomID → c1 = c) →
        (h.send c).closed = false →
        ∃ h1, unregisterClient c h = .ok h1
          ∧ c.roomID ∉ h1.rooms
          ∧ ∀ roomID, roomID ≠ c.roomID → (roomID ∈ h1.rooms ↔ roomID ∈ h.rooms) := by
  obtain ⟨hreg, hne⟩ := signaling.runEvents_registered h0 hempty events h hrun
  have hkey : ∀ (events1 : List HubEvent) (h2 : Hub), runEvents events1 h0 = .ok h2 →
      ∀ roomID, roomID ∈ h2.rooms ↔ ∃ c ∈ registeredAfter events1, c.roomID = roomID := by
    intro events1 h2 hrun2 roomID
    obtain ⟨hreg2, hne2⟩ := signaling.runEvents_registered h0 hempty events1 h2 hrun2
    constructor
    · intro hmem
      cases hl : h2.rooms.lookup roomID with
      | none => exact absurd hmem (AList.lookup_eq_none.mp hl)
      | some clients =>
        obtain ⟨c, hc⟩ := hne2 roomID clients hl
        have := (hreg2 roomID c).mp ⟨clients, hl, hc⟩
        exact ⟨c, this.1, this.2⟩
    · rintro ⟨c, hc, hr⟩
      obtain ⟨clients, hl, _⟩ := (hreg2 roomID c).mpr ⟨hc, hr⟩
      rw [← AList.lookup_isSome, hl]; rfl
  refine ⟨hreg, hkey events h hrun, ?_⟩
  intro c hc honly hopen
  obtain ⟨clients, hl, hmem⟩ := (hreg c.roomID c).mpr ⟨hc, rfl⟩
  have hstep : ∃ h1, unregisterClient c h = .ok h1 := by
    unfold unregisterClient
    simp only [hl, hmem, if_true, hopen, Bool.false_eq_true, if_false]
    split
    · exact ⟨_, rfl⟩
    · exact ⟨_, rfl⟩
  obtain ⟨h1, hstep⟩ := hstep
  have hrun1 : runEvents (events ++ [.unregister c]) h0 = .ok h1 := by
    unfold runEvents at hrun ⊢
    rw [List.foldlM_append, hrun]
    simpa [List.foldlM_cons, List.foldlM_nil, HubEvent.handle] using hstep
  have hafter : ∀ roomID, roomID ∈ h1.rooms ↔
      ∃ c1 ∈ (registeredAfter events).filter (fun c1 => c1 ≠ c), c1.roomID = roomID := by
    intro roomID
    rw [hkey _ h1 hrun1 roomID, signaling.registeredAfter_append]
  refine ⟨h1, hstep, ?_, ?_⟩
  · rw [hafter]
    rintro ⟨c1, hc1, hr⟩
    simp only [List.mem_filter, decide_eq_true_eq] at hc1
    exact hc1.2 (honly c1 hc1.1 hr)
  · intro roomID hk
    rw [hafter, hkey events h hrun roomID]
    constructor
    · rintro ⟨c1, hc1, hr⟩
      simp only [List.mem_filter, decide_eq_true_eq] at hc1
      exact ⟨c1, hc1.1, hr⟩
    · rintro ⟨c1, hc1, hr⟩
      refine ⟨c1, ?_, hr⟩
      simp only [List.mem_filter, decide_eq_true_eq]
      refine ⟨hc1, ?_⟩
      rintro rfl
      exact hk hr.symm

/-- The invariant of C7 on a concrete run from `NewHub`: "pub" and "sub1" register in
"r1" and a guest in "r2", "pub" registers once more and is unregistered twice. The run
completes; the history leaves the guest and "sub1" registered, and so does the map;
unregistering "sub1", the last member of "r1", completes and removes the key "r1" while
"r2" stays. -/
theorem Hub_room_key_iff_member_witness :
    NewHub.rooms = ∅
    ∧ runEvents demoEvents NewHub = .ok (hubAfter demoEvents NewHub)
    ∧ registeredAfter demoEvents = [guestClient, sub1Client]
    ∧ (hubAfter demoEvents NewHub).rooms.keys = ["r1", "r2"]
    ∧ (hubAfter demoEvents NewHub).members "r1" = [sub1Client]
    ∧ (∀ roomID c, (hubAfter demoEvents NewHub).registered roomID c ↔
        c ∈ registeredAfter demoEvents ∧ c.roomID = roomID)
    ∧ (∀ roomID, roomID ∈ (hubAfter demoEvents NewHub).rooms ↔
        ∃ c ∈ registeredAfter demoEvents, c.roomID = roomID)
    ∧ ∃ h1, unregisterClient sub1Client (hubAfter demoEvents NewHub) = .ok h1
        ∧ sub1Client.roomID ∉ h1.rooms
        ∧ ∀ roomID, roomID ≠ sub1Client.roomID →
            (roomID ∈ h1.rooms ↔ roomID ∈ (hubAfter demoEvents NewHub).rooms) :=
  ⟨rfl, rfl, by decide, rfl, rfl,
   (Hub_room_key_iff_member NewHub rfl demoEvents _ rfl).1,
   (Hub_room_key_iff_member NewHub rfl demoEvents _ rfl).2.1,
   (Hub_room_key_iff_member NewHub rfl demoEvents _ rfl).2.2 sub1Client (by decide)
     (by decide) rfl⟩

end MembershipHistory
